import Mathlib

/-!
# EntityFu: a shallow embedding of the entity–component storage engine

This file embeds the EntityFu storage engine (`EntityFu.h` / `EntityFu.cpp`,
the current revision: `namespace Entity`, `kMaxEntities = 8192`, per-type
dense `componentEids` vectors) into Lean and proves the specified properties.

Modelling conventions:
* `Eid` (entity id) and `Cid` (component-type id) are C++ `unsigned`; both are
  modelled as `Nat` — all indices the engine uses stay far below 2^32, so no
  wraparound arithmetic arises.
* The three process-wide pointers `entities`, `components`, `componentEids`
  are `Option`-valued fields of an `ECS` record; `none` models a null pointer
  exactly as the C++ code tests it (`components != nullptr`, ...).
  An allocated fixed-size C array is modelled as a total function.
* A component instance is an abstract token (`Nat`); the slot
  `components[cid][eid]` holds `Option Nat` (`none` = null pointer).
* Every mutating operation returns `Option (ECS × List Nat)`:
  the outer `none` models an access the C++ cannot make safely — dereferencing
  a null array pointer, or `destroyNow`'s unchecked out-of-bounds write
  `entities[eid] = false` for `eid ≥ kMaxEntities` (both undefined behaviour) —
  and the `List Nat` is the ordered list of component instances passed to
  `delete` during the call.
* `Component::numCids` is a per-application constant (set by the integrating
  code before first use); it is an explicit parameter `numCids` of every
  definition that reads it.
-/

namespace EntityFu

namespace Entity

/-- `enum {kMaxEntities = 8192};` from `EntityFu.h`. -/
def kMaxEntities : Nat := 8192

/-- Point update of a liveness table (`entities[i] = b`). -/
def updB (f : Nat → Bool) (i : Nat) (b : Bool) : Nat → Bool :=
  fun j => if j = i then b else f j

/-- Point update of the sparse component array (`components[c][e] = v`). -/
def upd2 (f : Nat → Nat → Option Nat) (c : Nat) (e : Nat) (v : Option Nat) :
    Nat → Nat → Option Nat :=
  fun c2 e2 => if c2 = c ∧ e2 = e then v else f c2 e2

/-- Point update of the dense eid-list array (`componentEids[c] = l`). -/
def updL (f : Nat → List Nat) (c : Nat) (l : List Nat) : Nat → List Nat :=
  fun c2 => if c2 = c then l else f c2

/-- The mutable static state of the engine: the three process-wide pointers
`static bool* entities`, `static Entity::Component*** components`,
`static vector<Eid>* componentEids`; `none` models a null pointer. -/
structure ECS where
  entities : Option (Nat → Bool)
  components : Option (Nat → Nat → Option Nat)
  componentEids : Option (Nat → List Nat)

/-- The state before first use: all three static pointers are null. -/
def init : ECS :=
  { entities := none, components := none, componentEids := none }

/-- `Entity::alloc()`: no-op if `components != nullptr`; otherwise allocates
the liveness table (all `false`), the per-type sparse arrays (all null) and
the per-type dense vectors (all empty). -/
def alloc (s : ECS) : ECS :=
  match s.components with
  | some _ => s
  | none =>
    { entities := some (fun _ => false),
      components := some (fun _ _ => none),
      componentEids := some (fun _ => []) }

/-- `Entity::removeComponent(Cid cid, Eid eid)`.  Returns the new state and
the list of deleted component instances; `none` models a null dereference. -/
def removeComponent (numCids : Nat) (s : ECS) (cid : Nat) (eid : Nat) :
    Option (ECS × List Nat) :=
  if kMaxEntities ≤ eid then some (s, [])
  else
    match s.entities with
    | none => none
    | some ent =>
      if ent eid = false then some (s, [])
      else if numCids ≤ cid then some (s, [])
      else
        match s.components with
        | none => none
        | some comps =>
          match comps cid eid with
          | none => some (s, [])
          | some v =>
            match s.componentEids with
            | none => none
            | some ce =>
              some ({ s with
                        components := some (upd2 comps cid eid none),
                        componentEids := some (updL ce cid ((ce cid).erase eid)) },
                    [v])

/-- `Entity::addComponent(Cid cid, Eid eid, Component* c)`.  A null `c` is
ignored; an invalid `eid`/`cid` or dead entity is a silent no-op; on a
occupied slot the old instance is removed first (via `removeComponent`),
then the new pointer is stored and `eid` is pushed onto the dense list. -/
def addComponent (numCids : Nat) (s : ECS) (cid : Nat) (eid : Nat)
    (c : Option Nat) : Option (ECS × List Nat) :=
  match c with
  | none => some (s, [])
  | some v =>
    if kMaxEntities ≤ eid then some (s, [])
    else
      match s.entities with
      | none => none
      | some ent =>
        if ent eid = false then some (s, [])
        else if numCids ≤ cid then some (s, [])
        else
          match s.components with
          | none => none
          | some comps =>
            match (if comps cid eid ≠ none then removeComponent numCids s cid eid
                   else some (s, [])) with
            | none => none
            | some (s1, d) =>
              match s1.components, s1.componentEids with
              | some comps1, some ce1 =>
                some ({ s1 with
                          components := some (upd2 comps1 cid eid (some v)),
                          componentEids := some (updL ce1 cid (ce1 cid ++ [eid])) },
                      d)
              | _, _ => none

/-- The fan-out loop of `Entity::destroyNow`: `removeComponent(cid, eid)` for
`cid = 0, 1, ..., n-1` in ascending order. -/
def removeLoop (numCids : Nat) (s : ECS) (eid : Nat) : Nat → Option (ECS × List Nat)
  | 0 => some (s, [])
  | n + 1 =>
    match removeLoop numCids s eid n with
    | none => none
    | some (s1, d1) =>
      match removeComponent numCids s1 n eid with
      | none => none
      | some (s2, d2) => some (s2, d1 ++ d2)

/-- `Entity::destroyNow(Eid eid)`: no-op for `eid == 0`; otherwise removes the
entity's component from every type's store (ascending `cid`), then clears the
liveness flag `entities[eid] = false`.  That final write is bounds-unchecked in
the C++ (the `removeComponent` guards protect only the loop): for
`eid ≥ kMaxEntities` it writes past the end of the `new bool[kMaxEntities]`
array — undefined behaviour, modelled by the crash marker `none`, exactly like
a write through a null pointer. -/
def destroyNow (numCids : Nat) (s : ECS) (eid : Nat) : Option (ECS × List Nat) :=
  if eid = 0 then some (s, [])
  else
    match removeLoop numCids s eid numCids with
    | none => none
    | some (s1, d) =>
      match s1.entities with
      | none => none
      | some ent =>
        if eid < kMaxEntities then
          some ({ s1 with entities := some (updB ent eid false) }, d)
        else none

/-- The loop of `Entity::destroyAll`: for `eid` in `[start, start+n)` in
ascending order, `if (entities[eid]) destroyNow(eid)`. -/
def destroyAllLoop (numCids : Nat) : ECS → Nat → Nat → Option (ECS × List Nat)
  | s, _, 0 => some (s, [])
  | s, eid, n + 1 =>
    match s.entities with
    | none => none
    | some ent =>
      match (if ent eid then destroyNow numCids s eid else some (s, [])) with
      | none => none
      | some (s1, d1) =>
        match destroyAllLoop numCids s1 (eid + 1) n with
        | none => none
        | some (s2, d2) => some (s2, d1 ++ d2)

/-- `Entity::destroyAll()`: destroys every live entity,
scanning `eid` from `1` to `kMaxEntities - 1`. -/
def destroyAll (numCids : Nat) (s : ECS) : Option (ECS × List Nat) :=
  destroyAllLoop numCids s 1 (kMaxEntities - 1)

/-- `Entity::dealloc()`: if `components != nullptr`, first `destroyAll()` and
free the per-type arrays; then free `componentEids` and `entities`; finally
all three pointers are set to null. -/
def dealloc (numCids : Nat) (s : ECS) : Option (ECS × List Nat) :=
  match s.components with
  | none =>
    some ({ entities := none, components := none, componentEids := none }, [])
  | some _ =>
    match destroyAll numCids s with
    | none => none
    | some (_, d) =>
      some ({ entities := none, components := none, componentEids := none }, d)

/-- The id scan of `Entity::create`:
`Nat eid = 1; for (; eid < kMaxEntities && entities[eid]; ++eid) {}`.
The fuel argument bounds the iteration count (`kMaxEntities` is enough). -/
def scanLive (ent : Nat → Bool) : Nat → Nat → Nat
  | eid, 0 => eid
  | eid, fuel + 1 =>
    if eid < kMaxEntities ∧ ent eid = true then scanLive ent (eid + 1) fuel else eid

/-- `Entity::create()`: auto-allocates, scans ascending from id `1` for the
first dead id; if none exists in `[1, kMaxEntities)`, asserts and returns the
invalid id `0`; otherwise marks the id live and returns it. -/
def create (s : ECS) : Option (ECS × Nat) :=
  let s1 := alloc s
  match s1.entities with
  | none => none
  | some ent =>
    let eid := scanLive ent 1 kMaxEntities
    if eid < 1 ∨ kMaxEntities ≤ eid then some (s1, 0)
    else some ({ s1 with entities := some (updB ent eid true) }, eid)

/-- `Entity::getComponent(Cid cid, Eid eid)`: bounds-checked sparse lookup
(`kTrustPointers == 0`).  The outer `Option` is the null-dereference monad;
the inner `Option Nat` is the returned component pointer. -/
def getComponent (numCids : Nat) (s : ECS) (cid : Nat) (eid : Nat) :
    Option (Option Nat) :=
  if eid < kMaxEntities ∧ cid < numCids then
    match s.components with
    | none => none
    | some comps => some (comps cid eid)
  else some none

/-- `Entity::getAll(Cid cid)`: the dense eid list for `cid`, or the static
`blankEids` (empty) if unallocated or `cid` out of range. -/
def getAll (numCids : Nat) (s : ECS) (cid : Nat) : List Nat :=
  match s.componentEids with
  | none => []
  | some ce => if cid < numCids then ce cid else []

/-- The header template `Entity::get<C>(eid)`: returns the stored component
(`Sum.inl`) or a reference to the shared static empty sentinel (`Sum.inr ()`)
when the lookup misses. -/
def get (numCids : Nat) (s : ECS) (cid : Nat) (eid : Nat) :
    Option (Nat ⊕ Unit) :=
  match getComponent numCids s cid eid with
  | none => none
  | some (some v) => some (Sum.inl v)
  | some none => some (Sum.inr ())

/-- `unsigned Entity::count()`: linear scan of the liveness table over
`[1, kMaxEntities)`; `0` when unallocated. -/
def count (s : ECS) : Nat :=
  match s.entities with
  | none => 0
  | some ent => ((List.range' 1 (kMaxEntities - 1)).filter (fun eid => ent eid)).length

/-- `unsigned Entity::count(Cid cid)`: the size of the dense list. -/
def countCid (numCids : Nat) (s : ECS) (cid : Nat) : Nat :=
  (getAll numCids s cid).length

/-- `bool Entity::exists(Eid eid)`:
`entities != nullptr && entities[eid]`.  The C++ read `entities[eid]` is
bounds-unchecked, so for `eid ≥ kMaxEntities` on an allocated state it is an
out-of-bounds read (undefined behaviour); the model returns the total
function's value there, and no theorem in this file asserts the value of
`existsEntity` in that region. -/
def existsEntity (s : ECS) (eid : Nat) : Bool :=
  match s.entities with
  | none => false
  | some ent => ent eid

/-- The mutation operations of the claimed invariant: `addComponent`,
`removeComponent`, `destroyNow`, `destroyAll`, `dealloc`. -/
inductive Op where
  | add (cid : Nat) (eid : Nat) (c : Option Nat)
  | remove (cid : Nat) (eid : Nat)
  | destroy (eid : Nat)
  | destroyAllOp
  | deallocOp

/-- One call of a mutation operation. -/
def step (numCids : Nat) (s : ECS) : Op → Option (ECS × List Nat)
  | .add cid eid c => addComponent numCids s cid eid c
  | .remove cid eid => removeComponent numCids s cid eid
  | .destroy eid => destroyNow numCids s eid
  | .destroyAllOp => destroyAll numCids s
  | .deallocOp => dealloc numCids s

/-- Run a sequence of mutation operations. -/
def run (numCids : Nat) (s : ECS) : List Op → Option ECS
  | [] => some s
  | op :: ops =>
    match step numCids s op with
    | none => none
    | some (s1, _) => run numCids s1 ops

/-- The operations of the id-lifecycle claim: `create`, `destroyNow` and
`destroyAll` (the returned id of an intermediate `create` is discarded). -/
inductive LifeOp where
  | createOp : LifeOp
  | destroyOp (eid : Nat) : LifeOp
  | destroyAllOp : LifeOp

/-- One call of an id-lifecycle operation. -/
def lifeStep (numCids : Nat) (s : ECS) : LifeOp → Option ECS
  | .createOp =>
    match create s with
    | none => none
    | some (s1, _) => some s1
  | .destroyOp eid =>
    match destroyNow numCids s eid with
    | none => none
    | some (s1, _) => some s1
  | .destroyAllOp =>
    match destroyAll numCids s with
    | none => none
    | some (s1, _) => some s1

/-- Run a sequence of id-lifecycle operations. -/
def runLife (numCids : Nat) (s : ECS) : List LifeOp → Option ECS
  | [] => some s
  | op :: ops =>
    match lifeStep numCids s op with
    | none => none
    | some s1 => runLife numCids s1 ops

/-- The states reachable by operating the engine through its public API
starting from the state before first use. -/
inductive Reach (numCids : Nat) : ECS → Prop where
  | start : Reach numCids init
  | allocStep (s : ECS) : Reach numCids s → Reach numCids (alloc s)
  | opStep (s s' : ECS) (op : Op) (d : List Nat) :
      Reach numCids s → step numCids s op = some (s', d) → Reach numCids s'
  | createStep (s s' : ECS) (e : Nat) :
      Reach numCids s → create s = some (s', e) → Reach numCids s'

/-- `k` consecutive `create()` calls from the state before first use,
collecting the returned ids. -/
def createN : Nat → Option (ECS × List Nat)
  | 0 => some (init, [])
  | k + 1 =>
    match createN k with
    | none => none
    | some (s, ids) =>
      match create s with
      | none => none
      | some (s', e) => some (s', ids ++ [e])

/-- The sparse column `eid` with the slots of the first `n` component types
cleared (the effect of `destroyNow`'s fan-out on the sparse arrays). -/
def clearCol (comps : Nat → Nat → Option Nat) (eid : Nat) (n : Nat) :
    Nat → Nat → Option Nat :=
  fun c e => if c < n ∧ e = eid then none else comps c e

/-- The dense lists with `eid` erased from the first `n` component types
(the effect of `destroyNow`'s fan-out on the dense lists). -/
def eraseAll (ce : Nat → List Nat) (eid : Nat) (n : Nat) : Nat → List Nat :=
  fun c => if c < n then (ce c).erase eid else ce c

/-- The components stored for `eid` in the first `n` types, in ascending
type order: the instances `destroyNow` deletes. -/
def colList (comps : Nat → Nat → Option Nat) (eid : Nat) (n : Nat) : List Nat :=
  (List.range n).filterMap (fun c => comps c eid)

/-- The engine invariant an allocated state satisfies: entity `0` and
out-of-range ids are never live; for each valid type the dense list has an
entry for `eid` iff the sparse slot is non-null, without duplicates; and a
non-null slot implies a live in-range entity and in-range type. -/
def AllocInv (numCids : Nat) (ent : Nat → Bool)
    (comps : Nat → Nat → Option Nat) (ce : Nat → List Nat) : Prop :=
  ent 0 = false ∧
  (∀ e, kMaxEntities ≤ e → ent e = false) ∧
  (∀ c, c < numCids → ((∀ e, e ∈ ce c ↔ comps c e ≠ none) ∧ (ce c).Nodup)) ∧
  (∀ c e, comps c e ≠ none → ent e = true ∧ 1 ≤ e ∧ e < kMaxEntities ∧ c < numCids)

/-- Every reachable state is either the unallocated state before first use or
an allocated state satisfying `AllocInv`. -/
def Inv (numCids : Nat) (s : ECS) : Prop :=
  s = init ∨
  ∃ ent comps ce,
    s = ⟨some ent, some comps, some ce⟩ ∧ AllocInv numCids ent comps ce

/-- The liveness table after `k` creations from a fresh state:
ids `1 … k` live. -/
def entUpTo (k : Nat) : Nat → Bool :=
  fun i => decide (1 ≤ i ∧ i ≤ k)

/-- The engine state after `k` creations from a fresh state. -/
def stateK (k : Nat) : ECS :=
  { entities := some (entUpTo k),
    components := some (fun _ _ => none),
    componentEids := some (fun _ => []) }

/-- The state in which every id in `[1, kMaxEntities)` is live. -/
def fullState : ECS := stateK (kMaxEntities - 1)

/-- The freshly allocated state. -/
def allocState : ECS := alloc init

/-- The liveness table with only entity `1` live. -/
def entOne : Nat → Bool := updB (fun _ => false) 1 true

/-- The state after one `create()` from a fresh state: entity `1` live. -/
def stateA : ECS :=
  { entities := some entOne,
    components := some (fun _ _ => none),
    componentEids := some (fun _ => []) }

/-- `stateA` after `addComponent(0, 1, c)` with component token `7`. -/
def stateB : ECS :=
  { entities := some entOne,
    components := some (upd2 (fun _ _ => none) 0 1 (some 7)),
    componentEids := some (updL (fun _ => []) 0 ([] ++ [1])) }

/-- The state after a second `create()` from `stateA`: entities `1`, `2` live. -/
def stateC : ECS :=
  { entities := some (updB entOne 2 true),
    components := some (fun _ _ => none),
    componentEids := some (fun _ => []) }

/-- The state after a third `create()` from `stateC`: entities `1`-`3` live. -/
def stateD : ECS :=
  { entities := some (updB (updB entOne 2 true) 3 true),
    components := some (fun _ _ => none),
    componentEids := some (fun _ => []) }

/-! ### Basic facts about the point-update helpers -/

theorem updB_same (f : Nat → Bool) (i : Nat) (b : Bool) : updB f i b i = b := by
  simp [updB]

theorem updB_other (f : Nat → Bool) {i j : Nat} {b : Bool} (h : j ≠ i) :
    updB f i b j = f j := by
  simp [updB, h]

theorem upd2_same (f : Nat → Nat → Option Nat) (c : Nat) (e : Nat) (v : Option Nat) :
    upd2 f c e v c e = v := by
  simp [upd2]

theorem upd2_other (f : Nat → Nat → Option Nat) {c c2 : Nat} {e e2 : Nat}
    {v : Option Nat} (h : ¬(c2 = c ∧ e2 = e)) : upd2 f c e v c2 e2 = f c2 e2 := by
  simp only [upd2, if_neg h]

theorem updL_same (f : Nat → List Nat) (c : Nat) (l : List Nat) :
    updL f c l c = l := by
  simp [updL]

theorem updL_other (f : Nat → List Nat) {c c2 : Nat} {l : List Nat} (h : c2 ≠ c) :
    updL f c l c2 = f c2 := by
  simp [updL, h]

/-! ### Characterizations of `removeComponent` -/

theorem removeComponent_oob {numCids : Nat} (s : ECS) {cid : Nat} {eid : Nat}
    (h : kMaxEntities ≤ eid) :
    removeComponent numCids s cid eid = some (s, []) := by
  simp [removeComponent, h]

theorem removeComponent_dead {numCids : Nat} {ent comps ce} {cid : Nat} {eid : Nat}
    (h : ent eid = false) :
    removeComponent numCids ⟨some ent, comps, ce⟩ cid eid = some (⟨some ent, comps, ce⟩, []) := by
  by_cases hb : kMaxEntities ≤ eid
  · simp [removeComponent, hb]
  · simp [removeComponent, hb, h]

theorem removeComponent_badCid {numCids : Nat} {ent comps ce} {cid : Nat} {eid : Nat}
    (he : eid < kMaxEntities) (hc : numCids ≤ cid) :
    removeComponent numCids ⟨some ent, comps, ce⟩ cid eid = some (⟨some ent, comps, ce⟩, []) := by
  by_cases h : ent eid = false
  · simp [removeComponent, Nat.not_le.mpr he, h]
  · simp [removeComponent, Nat.not_le.mpr he, h, hc]

theorem removeComponent_emptySlot {numCids : Nat} {ent comps ce} {cid : Nat} {eid : Nat}
    (he : eid < kMaxEntities) (hl : ent eid = true) (hc : cid < numCids)
    (hs : comps cid eid = none) :
    removeComponent numCids ⟨some ent, some comps, ce⟩ cid eid =
      some (⟨some ent, some comps, ce⟩, []) := by
  simp [removeComponent, Nat.not_le.mpr he, hl, Nat.not_le.mpr hc, hs]

theorem removeComponent_active {numCids : Nat} {ent comps ce} {cid : Nat} {eid : Nat} {v : Nat}
    (he : eid < kMaxEntities) (hl : ent eid = true) (hc : cid < numCids)
    (hs : comps cid eid = some v) :
    removeComponent numCids ⟨some ent, some comps, some ce⟩ cid eid =
      some (⟨some ent, some (upd2 comps cid eid none),
             some (updL ce cid ((ce cid).erase eid))⟩, [v]) := by
  simp [removeComponent, Nat.not_le.mpr he, hl, Nat.not_le.mpr hc, hs]

/-! ### Characterizations of `addComponent` -/

theorem addComponent_nullc {numCids : Nat} (s : ECS) (cid : Nat) (eid : Nat) :
    addComponent numCids s cid eid none = some (s, []) := by
  simp [addComponent]

theorem addComponent_oob {numCids : Nat} (s : ECS) {cid : Nat} {eid : Nat} (v : Nat)
    (h : kMaxEntities ≤ eid) :
    addComponent numCids s cid eid (some v) = some (s, []) := by
  simp [addComponent, h]

theorem addComponent_dead {numCids : Nat} {ent comps ce} {cid : Nat} {eid : Nat} (v : Nat)
    (h : ent eid = false) :
    addComponent numCids ⟨some ent, comps, ce⟩ cid eid (some v) =
      some (⟨some ent, comps, ce⟩, []) := by
  by_cases hb : kMaxEntities ≤ eid
  · simp [addComponent, hb]
  · simp [addComponent, hb, h]

theorem addComponent_badCid {numCids : Nat} {ent comps ce} {cid : Nat} {eid : Nat} (v : Nat)
    (he : eid < kMaxEntities) (hc : numCids ≤ cid) :
    addComponent numCids ⟨some ent, comps, ce⟩ cid eid (some v) =
      some (⟨some ent, comps, ce⟩, []) := by
  by_cases h : ent eid = false
  · simp [addComponent, Nat.not_le.mpr he, h]
  · simp [addComponent, Nat.not_le.mpr he, h, hc]

theorem addComponent_append {numCids : Nat} {ent comps ce} {cid : Nat} {eid : Nat} {v : Nat}
    (he : eid < kMaxEntities) (hl : ent eid = true) (hc : cid < numCids)
    (hs : comps cid eid = none) :
    addComponent numCids ⟨some ent, some comps, some ce⟩ cid eid (some v) =
      some (⟨some ent, some (upd2 comps cid eid (some v)),
             some (updL ce cid (ce cid ++ [eid]))⟩, []) := by
  simp [addComponent, Nat.not_le.mpr he, hl, Nat.not_le.mpr hc, hs]

theorem addComponent_replace {numCids : Nat} {ent comps ce} {cid : Nat} {eid : Nat} {v w : Nat}
    (he : eid < kMaxEntities) (hl : ent eid = true) (hc : cid < numCids)
    (hs : comps cid eid = some w) :
    addComponent numCids ⟨some ent, some comps, some ce⟩ cid eid (some v) =
      some (⟨some ent, some (upd2 (upd2 comps cid eid none) cid eid (some v)),
             some (updL (updL ce cid ((ce cid).erase eid)) cid
                     (((ce cid).erase eid) ++ [eid]))⟩, [w]) := by
  have hr := @removeComponent_active numCids ent comps ce cid eid w he hl hc hs
  simp [addComponent, Nat.not_le.mpr he, hl, Nat.not_le.mpr hc, hs, hr, updL_same]

/-! ### The id scan of `create` -/

theorem scanLive_eq (ent : Nat → Bool) :
    ∀ fuel start m, start ≤ m → m ≤ start + fuel →
      (∀ j, start ≤ j → j < m → (j < kMaxEntities ∧ ent j = true)) →
      ¬(m < kMaxEntities ∧ ent m = true) →
      scanLive ent start fuel = m := by
  intro fuel
  induction fuel with
  | zero =>
    intro start m h1 h2 _ _
    have : start = m := by omega
    simp [scanLive, this]
  | succ n ih =>
    intro start m h1 h2 h3 h4
    by_cases hsm : start = m
    · subst hsm
      simp only [scanLive]
      rw [if_neg h4]
    · have hlt : start < m := by omega
      have hs := h3 start (le_refl _) hlt
      simp only [scanLive]
      rw [if_pos hs]
      exact ih (start + 1) m (by omega) (by omega)
        (fun j hj1 hj2 => h3 j (by omega) hj2) h4

theorem scanLive_stop (ent : Nat → Bool) :
    ∀ fuel start, kMaxEntities ≤ start + fuel →
      scanLive ent start fuel < kMaxEntities →
      ent (scanLive ent start fuel) = false := by
  intro fuel
  induction fuel with
  | zero =>
    intro start h1 h2
    simp only [scanLive] at h2 ⊢
    exact absurd h2 (by omega)
  | succ n ih =>
    intro start h1 h2
    by_cases hc : start < kMaxEntities ∧ ent start = true
    · simp only [scanLive, if_pos hc] at h2 ⊢
      exact ih (start + 1) (by omega) h2
    · simp only [scanLive, if_neg hc] at h2 ⊢
      rcases Bool.eq_false_or_eq_true (ent start) with h | h
      · exact absurd ⟨h2, h⟩ hc
      · exact h

theorem scanLive_ge (ent : Nat → Bool) :
    ∀ fuel start, start ≤ scanLive ent start fuel := by
  intro fuel
  induction fuel with
  | zero => intro start; simp [scanLive]
  | succ n ih =>
    intro start
    simp only [scanLive]
    by_cases hc : start < kMaxEntities ∧ ent start = true
    · rw [if_pos hc]
      exact le_trans (by omega) (ih (start + 1))
    · rw [if_neg hc]

/-! ### The fan-out of `destroyNow` over all component types -/

theorem clearCol_zero (comps : Nat → Nat → Option Nat) (eid : Nat) :
    clearCol comps eid 0 = comps :=
  funext fun c => funext fun e => by simp [clearCol]

theorem eraseAll_zero (ce : Nat → List Nat) (eid : Nat) :
    eraseAll ce eid 0 = ce :=
  funext fun c => by simp [eraseAll]

theorem colList_zero (comps : Nat → Nat → Option Nat) (eid : Nat) :
    colList comps eid 0 = [] := rfl

theorem clearCol_at {comps : Nat → Nat → Option Nat} {eid : Nat} {n c e : Nat}
    (h : ¬(c < n ∧ e = eid)) : clearCol comps eid n c e = comps c e := by
  simp only [clearCol, if_neg h]

theorem clearCol_succ (comps : Nat → Nat → Option Nat) (eid n : Nat) :
    upd2 (clearCol comps eid n) n eid none = clearCol comps eid (n + 1) := by
  funext c e
  simp only [upd2, clearCol]
  by_cases hee : e = eid
  · subst hee
    by_cases hc : c = n
    · subst hc
      rw [if_pos ⟨rfl, rfl⟩, if_pos ⟨by omega, rfl⟩]
    · rw [if_neg (fun hp => hc hp.1)]
      by_cases hlt : c < n
      · rw [if_pos ⟨hlt, rfl⟩, if_pos ⟨by omega, rfl⟩]
      · rw [if_neg (fun hp => hlt hp.1), if_neg (fun hp => absurd hp.1 (by omega))]
  · rw [if_neg (fun hp => hee hp.2), if_neg (fun hp => hee hp.2),
      if_neg (fun hp => hee hp.2)]

theorem clearCol_succ_of_none {comps : Nat → Nat → Option Nat} {eid n : Nat}
    (hs : comps n eid = none) :
    clearCol comps eid (n + 1) = clearCol comps eid n := by
  funext c e
  simp only [clearCol]
  by_cases hee : e = eid
  · subst hee
    by_cases hc : c = n
    · subst hc
      rw [if_pos ⟨by omega, rfl⟩, if_neg (fun hp => absurd hp.1 (by omega)), hs]
    · by_cases hlt : c < n
      · rw [if_pos ⟨by omega, rfl⟩, if_pos ⟨hlt, rfl⟩]
      · rw [if_neg (fun hp => absurd hp.1 (by omega)), if_neg (fun hp => hlt hp.1)]
  · rw [if_neg (fun hp => hee hp.2), if_neg (fun hp => hee hp.2)]

theorem eraseAll_succ (ce : Nat → List Nat) (eid n : Nat) :
    updL (eraseAll ce eid n) n ((eraseAll ce eid n n).erase eid) =
      eraseAll ce eid (n + 1) := by
  have hn : eraseAll ce eid n n = ce n := by
    simp only [eraseAll]
    rw [if_neg (by omega : ¬ n < n)]
  rw [hn]
  funext c
  by_cases hc : c = n
  · subst hc
    rw [updL_same]
    simp only [eraseAll]
    rw [if_pos (by omega)]
  · rw [updL_other _ hc]
    simp only [eraseAll]
    by_cases hlt : c < n
    · rw [if_pos hlt, if_pos (by omega)]
    · rw [if_neg hlt, if_neg (by omega)]

theorem eraseAll_succ_of_not_mem {ce : Nat → List Nat} {eid n : Nat}
    (h : eid ∉ ce n) :
    eraseAll ce eid (n + 1) = eraseAll ce eid n := by
  funext c
  simp only [eraseAll]
  by_cases hc : c = n
  · subst hc
    rw [if_pos (by omega), if_neg (by omega), List.erase_of_not_mem h]
  · by_cases hlt : c < n
    · rw [if_pos (by omega), if_pos hlt]
    · rw [if_neg (by omega), if_neg hlt]

theorem range_add_one (n : Nat) : List.range (n + 1) = List.range n ++ [n] := by
  rw [← Nat.succ_eq_add_one]
  exact List.range_succ n

theorem colList_succ_some {comps : Nat → Nat → Option Nat} {eid n : Nat} {v : Nat}
    (hs : comps n eid = some v) :
    colList comps eid (n + 1) = colList comps eid n ++ [v] := by
  simp [colList, range_add_one n, hs]

theorem colList_succ_none {comps : Nat → Nat → Option Nat} {eid n : Nat}
    (hs : comps n eid = none) :
    colList comps eid (n + 1) = colList comps eid n := by
  simp [colList, range_add_one n, hs]

theorem removeLoop_spec {numCids : Nat} {ent : Nat → Bool}
    {comps : Nat → Nat → Option Nat} {ce : Nat → List Nat} {eid : Nat}
    (hinv : AllocInv numCids ent comps ce)
    (he : eid < kMaxEntities) (hl : ent eid = true) :
    ∀ n, n ≤ numCids →
      removeLoop numCids ⟨some ent, some comps, some ce⟩ eid n =
        some (⟨some ent, some (clearCol comps eid n), some (eraseAll ce eid n)⟩,
              colList comps eid n) := by
  intro n
  induction n with
  | zero =>
    intro _
    rw [clearCol_zero, eraseAll_zero, colList_zero]
    rfl
  | succ n ih =>
    intro hn
    have hcn : n < numCids := by omega
    simp only [removeLoop, ih (by omega)]
    rcases hv : comps n eid with _ | v
    · have hslot : clearCol comps eid n n eid = none := by
        rw [clearCol_at (by omega), hv]
      rw [removeComponent_emptySlot he hl hcn hslot,
        clearCol_succ_of_none hv, colList_succ_none hv]
      have hmem : eid ∉ ce n := by
        intro hmem
        exact ((hinv.2.2.1 n hcn).1 eid).mp hmem hv
      rw [eraseAll_succ_of_not_mem hmem]
      simp
    · have hslot : clearCol comps eid n n eid = some v := by
        rw [clearCol_at (by omega), hv]
      rw [removeComponent_active he hl hcn hslot,
        clearCol_succ, eraseAll_succ, colList_succ_some hv]

theorem removeLoop_dead {numCids : Nat} {ent : Nat → Bool}
    {comps ce} {eid : Nat} (hl : ent eid = false) :
    ∀ n, removeLoop numCids ⟨some ent, comps, ce⟩ eid n =
      some (⟨some ent, comps, ce⟩, []) := by
  intro n
  induction n with
  | zero => rfl
  | succ n ih =>
    by_cases hb : kMaxEntities ≤ eid
    · simp only [removeLoop, ih, removeComponent_oob _ hb]
      rfl
    · simp only [removeLoop, ih, removeComponent_dead hl]
      rfl

/-! ### Characterizations of `destroyNow` -/

theorem destroyNow_zero {numCids : Nat} (s : ECS) :
    destroyNow numCids s 0 = some (s, []) := rfl

theorem destroyNow_active {numCids : Nat} {ent : Nat → Bool}
    {comps : Nat → Nat → Option Nat} {ce : Nat → List Nat} {eid : Nat}
    (hinv : AllocInv numCids ent comps ce) (hl : ent eid = true) :
    destroyNow numCids ⟨some ent, some comps, some ce⟩ eid =
      some (⟨some (updB ent eid false), some (clearCol comps eid numCids),
             some (eraseAll ce eid numCids)⟩, colList comps eid numCids) := by
  have h0 : eid ≠ 0 := by
    intro h
    rw [h, hinv.1] at hl
    exact Bool.false_ne_true hl
  have he : eid < kMaxEntities := by
    by_contra h
    rw [hinv.2.1 eid (by omega)] at hl
    exact Bool.false_ne_true hl
  simp only [destroyNow, if_neg h0,
    removeLoop_spec hinv he hl numCids (le_refl _), if_pos he]

theorem destroyNow_dead {numCids : Nat} {ent : Nat → Bool}
    {comps ce} {eid : Nat} (hl : ent eid = false) (h0 : eid ≠ 0)
    (he : eid < kMaxEntities) :
    destroyNow numCids ⟨some ent, comps, ce⟩ eid =
      some (⟨some ent, comps, ce⟩, []) := by
  have hup : updB ent eid false = ent := by
    funext j
    by_cases hj : j = eid
    · subst hj; simp [updB, hl]
    · simp [updB, hj]
  simp only [destroyNow, if_neg h0, removeLoop_dead hl, if_pos he, hup]

theorem removeLoop_oob {numCids : Nat} {s : ECS} {eid : Nat}
    (hb : kMaxEntities ≤ eid) :
    ∀ n, removeLoop numCids s eid n = some (s, []) := by
  intro n
  induction n with
  | zero => rfl
  | succ n ih =>
    simp only [removeLoop, ih, removeComponent_oob _ hb]
    rfl

theorem destroyNow_oob {numCids : Nat} {s : ECS} {eid : Nat}
    (h0 : eid ≠ 0) (hb : kMaxEntities ≤ eid) :
    destroyNow numCids s eid = none := by
  simp only [destroyNow, if_neg h0, removeLoop_oob hb]
  rcases hse : s.entities with _ | ent
  · rfl
  · exact if_neg (Nat.not_lt.mpr hb)

/-! ### Preservation of the allocated-state invariant -/

theorem allocInv_fresh (numCids : Nat) :
    AllocInv numCids (fun _ => false) (fun _ _ => none) (fun _ => []) := by
  refine ⟨rfl, fun _ _ => rfl, fun c _ => ⟨fun e => ?_, List.nodup_nil⟩, fun c e h => ?_⟩
  · simp
  · simp at h

theorem allocInv_remove {numCids : Nat} {ent comps ce} {cid eid : Nat}
    (hinv : AllocInv numCids ent comps ce) (hcid : cid < numCids) :
    AllocInv numCids ent (upd2 comps cid eid none)
      (updL ce cid ((ce cid).erase eid)) := by
  obtain ⟨h0, hoob, hlists, hslots⟩ := hinv
  refine ⟨h0, hoob, fun c hcn => ?_, fun c e h => ?_⟩
  · obtain ⟨hmem, hnd⟩ := hlists c hcn
    by_cases hcc : c = cid
    · subst hcc
      rw [updL_same]
      refine ⟨fun e => ?_, hnd.erase eid⟩
      rw [hnd.mem_erase_iff]
      by_cases hee : e = eid
      · subst hee
        rw [upd2_same]
        simp
      · have hne : ¬(c = c ∧ e = eid) := fun hp => hee hp.2
        rw [upd2_other _ hne, hmem e]
        simp [hee]
    · have hne : ∀ e : Nat, ¬(c = cid ∧ e = eid) := fun e hp => hcc hp.1
      rw [updL_other _ hcc]
      refine ⟨fun e => ?_, (hlists c hcn).2⟩
      rw [upd2_other _ (hne e)]
      exact hmem e
  · by_cases hp : c = cid ∧ e = eid
    · rw [upd2, if_pos hp] at h
      exact absurd rfl h
    · rw [upd2_other _ hp] at h
      exact hslots c e h

theorem allocInv_add {numCids : Nat} {ent comps ce} {cid eid v : Nat}
    (hinv : AllocInv numCids ent comps ce) (hcid : cid < numCids)
    (hl : ent eid = true) (hs : comps cid eid = none) :
    AllocInv numCids ent (upd2 comps cid eid (some v))
      (updL ce cid (ce cid ++ [eid])) := by
  obtain ⟨h0, hoob, hlists, hslots⟩ := hinv
  have h1 : 1 ≤ eid := by
    rcases Nat.eq_zero_or_pos eid with h | h
    · rw [h, h0] at hl; exact absurd hl Bool.false_ne_true
    · exact h
  have h2 : eid < kMaxEntities := by
    by_contra h
    rw [hoob eid (by omega)] at hl
    exact absurd hl Bool.false_ne_true
  refine ⟨h0, hoob, fun c hcn => ?_, fun c e h => ?_⟩
  · obtain ⟨hmem, hnd⟩ := hlists c hcn
    by_cases hcc : c = cid
    · subst hcc
      rw [updL_same]
      have hnotmem : eid ∉ ce c := fun hm => (hmem eid).mp hm hs
      constructor
      · intro e
        rw [List.mem_append, List.mem_singleton]
        by_cases hee : e = eid
        · subst hee
          rw [upd2_same]
          simp
        · have hne : ¬(c = c ∧ e = eid) := fun hp => hee hp.2
          rw [upd2_other _ hne, ← hmem e]
          simp [hee]
      · rw [List.nodup_append]
        exact ⟨hnd, List.nodup_singleton eid,
          fun a ha hb => hnotmem (List.mem_singleton.mp hb ▸ ha)⟩
    · have hne : ∀ e : Nat, ¬(c = cid ∧ e = eid) := fun e hp => hcc hp.1
      rw [updL_other _ hcc]
      refine ⟨fun e => ?_, (hlists c hcn).2⟩
      rw [upd2_other _ (hne e)]
      exact hmem e
  · by_cases hp : c = cid ∧ e = eid
    · obtain ⟨rfl, rfl⟩ := hp
      exact ⟨hl, h1, h2, hcid⟩
    · rw [upd2_other _ hp] at h
      exact hslots c e h

theorem allocInv_destroy {numCids : Nat} {ent comps ce} {eid : Nat}
    (hinv : AllocInv numCids ent comps ce) :
    AllocInv numCids (updB ent eid false) (clearCol comps eid numCids)
      (eraseAll ce eid numCids) := by
  obtain ⟨h0, hoob, hlists, hslots⟩ := hinv
  refine ⟨?_, fun e he => ?_, fun c hcn => ?_, fun c e h => ?_⟩
  · by_cases h : (0 : Nat) = eid <;> simp [updB, h, h0]
  · by_cases h : e = eid <;> simp [updB, h, hoob e he]
  · obtain ⟨hmem, hnd⟩ := hlists c hcn
    constructor
    · intro e
      simp only [eraseAll, if_pos hcn]
      rw [hnd.mem_erase_iff]
      by_cases hee : e = eid
      · rw [hee]
        have hcc : clearCol comps eid numCids c eid = none := by
          simp [clearCol, hcn]
        rw [hcc]
        simp
      · rw [clearCol_at (fun hp => hee hp.2), hmem e]
        simp [hee]
    · simp only [eraseAll, if_pos hcn]
      exact hnd.erase eid
  · have hne : ¬(c < numCids ∧ e = eid) := by
      intro hp
      rw [clearCol, if_pos hp] at h
      exact h rfl
    rw [clearCol_at hne] at h
    obtain ⟨hlive, hge, hlt, hcn⟩ := hslots c e h
    have hee : e ≠ eid := fun hp => hne ⟨hcn, hp⟩
    refine ⟨?_, hge, hlt, hcn⟩
    rw [updB_other _ hee]
    exact hlive

theorem allocInv_live {numCids : Nat} {ent comps ce} {m : Nat}
    (hinv : AllocInv numCids ent comps ce) (h1 : 1 ≤ m) (h2 : m < kMaxEntities) :
    AllocInv numCids (updB ent m true) comps ce := by
  obtain ⟨h0, hoob, hlists, hslots⟩ := hinv
  refine ⟨?_, fun e he => ?_, hlists, fun c e h => ?_⟩
  · rw [updB_other _ (by omega : (0 : Nat) ≠ m)]; exact h0
  · rw [updB_other _ (by omega : e ≠ m)]; exact hoob e he
  · obtain ⟨hlive, hge, hlt, hcn⟩ := hslots c e h
    by_cases hee : e = m
    · subst hee
      exact ⟨updB_same ent e true, hge, hlt, hcn⟩
    · rw [updB_other _ hee]
      exact ⟨hlive, hge, hlt, hcn⟩

/-! ### `destroyAll` and `dealloc` -/

theorem some_pair_inj {α β : Type} {a1 a2 : α} {b1 b2 : β}
    (h : (some (a1, b1) : Option (α × β)) = some (a2, b2)) : a1 = a2 ∧ b1 = b2 := by
  simp only [Option.some.injEq, Prod.mk.injEq] at h
  exact h

theorem destroyAllLoop_sound {numCids : Nat} :
    ∀ (n start : Nat) (ent : Nat → Bool) (comps : Nat → Nat → Option Nat)
      (ce : Nat → List Nat), AllocInv numCids ent comps ce →
      ∃ ent2 comps2 ce2 d,
        destroyAllLoop numCids ⟨some ent, some comps, some ce⟩ start n =
          some (⟨some ent2, some comps2, some ce2⟩, d) ∧
        AllocInv numCids ent2 comps2 ce2 ∧
        (∀ c e v, start ≤ e → e < start + n → comps c e = some v → v ∈ d) := by
  intro n
  induction n with
  | zero =>
    intro start ent comps ce hinv
    exact ⟨ent, comps, ce, [], rfl, hinv,
      fun c e v h1 h2 _ => absurd h2 (by omega)⟩
  | succ n ih =>
    intro start ent comps ce hinv
    rcases Bool.eq_false_or_eq_true (ent start) with hl | hl
    · obtain ⟨ent2, comps2, ce2, d2, heq, hinv2, hcol⟩ :=
        ih (start + 1) (updB ent start false) (clearCol comps start numCids)
          (eraseAll ce start numCids) (allocInv_destroy hinv)
      refine ⟨ent2, comps2, ce2, colList comps start numCids ++ d2, ?_, hinv2, ?_⟩
      · simp only [destroyAllLoop, if_pos hl, destroyNow_active hinv hl, heq]
      · intro c e v h1 h2 hv
        rcases Nat.eq_or_lt_of_le h1 with he | he
        · apply List.mem_append_left
          have hc : c < numCids :=
            (hinv.2.2.2 c e (by rw [hv]; exact Option.some_ne_none v)).2.2.2
          exact List.mem_filterMap.mpr
            ⟨c, List.mem_range.mpr hc, by rw [← he] at hv; exact hv⟩
        · apply List.mem_append_right
          have hee : e ≠ start := by omega
          have hcc : clearCol comps start numCids c e = some v := by
            rw [clearCol_at (fun hp => hee hp.2)]
            exact hv
          exact hcol c e v he (by omega) hcc
    · obtain ⟨ent2, comps2, ce2, d2, heq, hinv2, hcol⟩ :=
        ih (start + 1) ent comps ce hinv
      refine ⟨ent2, comps2, ce2, d2, ?_, hinv2, ?_⟩
      · have hcond : ¬(ent start = true) := by rw [hl]; exact Bool.false_ne_true
        simp only [destroyAllLoop, if_neg hcond, heq]
        rfl
      · intro c e v h1 h2 hv
        rcases Nat.eq_or_lt_of_le h1 with he | he
        · exfalso
          have := (hinv.2.2.2 c e (by rw [hv]; exact Option.some_ne_none v)).1
          rw [← he, hl] at this
          exact Bool.false_ne_true this
        · exact hcol c e v he (by omega) hv

theorem destroyAll_init {numCids : Nat} : destroyAll numCids init = none := rfl

theorem dealloc_init {numCids : Nat} : dealloc numCids init = some (init, []) := rfl

theorem dealloc_sound {numCids : Nat} {s : ECS} (hinv : Inv numCids s) :
    ∃ d, dealloc numCids s = some (init, d) ∧
      (∀ comps c e v, s.components = some comps → comps c e = some v → v ∈ d) := by
  have hk : kMaxEntities = 8192 := rfl
  rcases hinv with rfl | ⟨ent, comps, ce, rfl, hai⟩
  · exact ⟨[], rfl, fun comps c e v h => by simp [init] at h⟩
  · obtain ⟨ent2, comps2, ce2, d, heq, hinv2, hcol⟩ :=
      destroyAllLoop_sound (kMaxEntities - 1) 1 ent comps ce hai
    refine ⟨d, ?_, ?_⟩
    · simp only [dealloc, destroyAll, heq]
      rfl
    · intro comps' c e v hc hv
      have hcc : comps' = comps := by
        simpa using hc.symm
      subst hcc
      have hr := hai.2.2.2 c e (by rw [hv]; exact Option.some_ne_none v)
      exact hcol c e v hr.2.1 (by omega) hv

/-! ### Crashes of the mutating operations on the unallocated state -/

theorem addComponent_init_crash {numCids : Nat} {cid eid v : Nat}
    (hb : eid < kMaxEntities) :
    addComponent numCids init cid eid (some v) = none := by
  simp [addComponent, Nat.not_le.mpr hb, init]

theorem removeComponent_init_crash {numCids : Nat} {cid eid : Nat}
    (hb : eid < kMaxEntities) :
    removeComponent numCids init cid eid = none := by
  simp [removeComponent, Nat.not_le.mpr hb, init]

theorem removeLoop_init {numCids : Nat} {eid : Nat} :
    ∀ n, removeLoop numCids init eid n = some (init, []) ∨
      removeLoop numCids init eid n = none := by
  intro n
  induction n with
  | zero => left; rfl
  | succ n ih =>
    rcases ih with h | h
    · by_cases hb : kMaxEntities ≤ eid
      · left
        simp only [removeLoop, h, removeComponent_oob _ hb]
        rfl
      · right
        simp only [removeLoop, h,
          removeComponent_init_crash (Nat.not_le.mp hb)]
    · right
      simp only [removeLoop, h]

theorem destroyNow_init {numCids : Nat} {eid : Nat} (h0 : eid ≠ 0) :
    destroyNow numCids init eid = none := by
  simp only [destroyNow, if_neg h0]
  rcases @removeLoop_init numCids eid numCids with h | h
  · rw [h]
    rfl
  · rw [h]

/-! ### Preservation of `Inv` by every operation -/

theorem inv_alloc {numCids : Nat} {s : ECS} (hinv : Inv numCids s) :
    ∃ ent comps ce, alloc s = ⟨some ent, some comps, some ce⟩ ∧
      AllocInv numCids ent comps ce := by
  rcases hinv with rfl | ⟨ent, comps, ce, rfl, hai⟩
  · exact ⟨_, _, _, rfl, allocInv_fresh numCids⟩
  · exact ⟨ent, comps, ce, rfl, hai⟩

theorem inv_addComponent {numCids : Nat} {s s' : ECS} {cid eid : Nat}
    {c : Option Nat} {d : List Nat} (hinv : Inv numCids s)
    (h : addComponent numCids s cid eid c = some (s', d)) : Inv numCids s' := by
  rcases c with _ | v
  · rw [addComponent_nullc] at h
    obtain ⟨rfl, -⟩ := some_pair_inj h
    exact hinv
  · by_cases hb : kMaxEntities ≤ eid
    · rw [addComponent_oob _ v hb] at h
      obtain ⟨rfl, -⟩ := some_pair_inj h
      exact hinv
    · rcases hinv with rfl | ⟨ent, comps, ce, rfl, hai⟩
      · rw [addComponent_init_crash (Nat.not_le.mp hb)] at h
        exact absurd h (by simp)
      · rcases Bool.eq_false_or_eq_true (ent eid) with hl | hl
        swap
        · rw [addComponent_dead v hl] at h
          obtain ⟨rfl, -⟩ := some_pair_inj h
          exact Or.inr ⟨ent, comps, ce, rfl, hai⟩
        · by_cases hc : cid < numCids
          · rcases hs : comps cid eid with _ | w
            · rw [addComponent_append (Nat.not_le.mp hb) hl hc hs] at h
              obtain ⟨rfl, -⟩ := some_pair_inj h
              exact Or.inr ⟨_, _, _, rfl, allocInv_add hai hc hl hs⟩
            · rw [addComponent_replace (Nat.not_le.mp hb) hl hc hs] at h
              obtain ⟨rfl, -⟩ := some_pair_inj h
              have step1 := @allocInv_remove numCids ent comps ce cid eid hai hc
              have step2 := allocInv_add (v := v) step1 hc hl (upd2_same comps cid eid none)
              rw [updL_same] at step2
              exact Or.inr ⟨_, _, _, rfl, step2⟩
          · rw [addComponent_badCid v (Nat.not_le.mp hb) (Nat.not_lt.mp hc)] at h
            obtain ⟨rfl, -⟩ := some_pair_inj h
            exact Or.inr ⟨ent, comps, ce, rfl, hai⟩

theorem inv_removeComponent {numCids : Nat} {s s' : ECS} {cid eid : Nat}
    {d : List Nat} (hinv : Inv numCids s)
    (h : removeComponent numCids s cid eid = some (s', d)) : Inv numCids s' := by
  by_cases hb : kMaxEntities ≤ eid
  · rw [removeComponent_oob _ hb] at h
    obtain ⟨rfl, -⟩ := some_pair_inj h
    exact hinv
  · rcases hinv with rfl | ⟨ent, comps, ce, rfl, hai⟩
    · rw [removeComponent_init_crash (Nat.not_le.mp hb)] at h
      exact absurd h (by simp)
    · rcases Bool.eq_false_or_eq_true (ent eid) with hl | hl
      swap
      · rw [removeComponent_dead hl] at h
        obtain ⟨rfl, -⟩ := some_pair_inj h
        exact Or.inr ⟨ent, comps, ce, rfl, hai⟩
      · by_cases hc : cid < numCids
        · rcases hs : comps cid eid with _ | w
          · rw [removeComponent_emptySlot (Nat.not_le.mp hb) hl hc hs] at h
            obtain ⟨rfl, -⟩ := some_pair_inj h
            exact Or.inr ⟨ent, comps, ce, rfl, hai⟩
          · rw [removeComponent_active (Nat.not_le.mp hb) hl hc hs] at h
            obtain ⟨rfl, -⟩ := some_pair_inj h
            exact Or.inr ⟨_, _, _, rfl, allocInv_remove hai hc⟩
        · rw [removeComponent_badCid (Nat.not_le.mp hb) (Nat.not_lt.mp hc)] at h
          obtain ⟨rfl, -⟩ := some_pair_inj h
          exact Or.inr ⟨ent, comps, ce, rfl, hai⟩

theorem inv_destroyNow {numCids : Nat} {s s' : ECS} {eid : Nat} {d : List Nat}
    (hinv : Inv numCids s) (h : destroyNow numCids s eid = some (s', d)) :
    Inv numCids s' := by
  by_cases h0 : eid = 0
  · subst h0
    rw [destroyNow_zero] at h
    obtain ⟨rfl, -⟩ := some_pair_inj h
    exact hinv
  · rcases hinv with rfl | ⟨ent, comps, ce, rfl, hai⟩
    · rw [destroyNow_init h0] at h
      exact absurd h (by simp)
    · rcases Bool.eq_false_or_eq_true (ent eid) with hl | hl
      swap
      · by_cases hbe : kMaxEntities ≤ eid
        · rw [destroyNow_oob h0 hbe] at h
          exact absurd h (by simp)
        · rw [destroyNow_dead hl h0 (Nat.not_le.mp hbe)] at h
          obtain ⟨rfl, -⟩ := some_pair_inj h
          exact Or.inr ⟨ent, comps, ce, rfl, hai⟩
      · rw [destroyNow_active hai hl] at h
        obtain ⟨rfl, -⟩ := some_pair_inj h
        exact Or.inr ⟨_, _, _, rfl, allocInv_destroy hai⟩

theorem inv_destroyAll {numCids : Nat} {s s' : ECS} {d : List Nat}
    (hinv : Inv numCids s) (h : destroyAll numCids s = some (s', d)) :
    Inv numCids s' := by
  rcases hinv with rfl | ⟨ent, comps, ce, rfl, hai⟩
  · rw [destroyAll_init] at h
    exact absurd h (by simp)
  · obtain ⟨ent2, comps2, ce2, d2, heq, hinv2, -⟩ :=
      destroyAllLoop_sound (kMaxEntities - 1) 1 ent comps ce hai
    simp only [destroyAll] at h
    rw [heq] at h
    obtain ⟨rfl, -⟩ := some_pair_inj h
    exact Or.inr ⟨ent2, comps2, ce2, rfl, hinv2⟩

theorem inv_dealloc {numCids : Nat} {s s' : ECS} {d : List Nat}
    (hinv : Inv numCids s) (h : dealloc numCids s = some (s', d)) :
    Inv numCids s' := by
  obtain ⟨d2, heq, -⟩ := dealloc_sound hinv
  rw [heq] at h
  obtain ⟨rfl, -⟩ := some_pair_inj h
  exact Or.inl rfl

theorem inv_create {numCids : Nat} {s s' : ECS} {e : Nat}
    (hinv : Inv numCids s) (h : create s = some (s', e)) : Inv numCids s' := by
  obtain ⟨ent, comps, ce, heq, hai⟩ := inv_alloc hinv
  have hent : (alloc s).entities = some ent := by rw [heq]
  simp only [create, hent] at h
  by_cases hb : scanLive ent 1 kMaxEntities < 1 ∨
      kMaxEntities ≤ scanLive ent 1 kMaxEntities
  · rw [if_pos hb] at h
    obtain ⟨rfl, -⟩ := some_pair_inj h
    exact Or.inr ⟨ent, comps, ce, heq, hai⟩
  · rw [if_neg hb] at h
    push_neg at hb
    obtain ⟨rfl, -⟩ := some_pair_inj h
    refine Or.inr ⟨updB ent (scanLive ent 1 kMaxEntities) true, comps, ce, ?_,
      allocInv_live hai hb.1 hb.2⟩
    rw [heq]

theorem inv_step {numCids : Nat} {s s' : ECS} {op : Op} {d : List Nat}
    (hinv : Inv numCids s) (h : step numCids s op = some (s', d)) :
    Inv numCids s' := by
  cases op with
  | add cid eid c => exact inv_addComponent hinv h
  | remove cid eid => exact inv_removeComponent hinv h
  | destroy eid => exact inv_destroyNow hinv h
  | destroyAllOp => exact inv_destroyAll hinv h
  | deallocOp => exact inv_dealloc hinv h

theorem inv_run {numCids : Nat} :
    ∀ (ops : List Op) (s s' : ECS), Inv numCids s →
      run numCids s ops = some s' → Inv numCids s' := by
  intro ops
  induction ops with
  | nil =>
    intro s s' hinv h
    simp only [run, Option.some.injEq] at h
    exact h ▸ hinv
  | cons op ops ih =>
    intro s s' hinv h
    simp only [run] at h
    rcases hstep : step numCids s op with _ | ⟨s1, d⟩
    · rw [hstep] at h
      exact absurd h (by simp)
    · rw [hstep] at h
      exact ih s1 s' (inv_step hinv hstep) h

theorem inv_reach {numCids : Nat} {s : ECS} (h : Reach numCids s) :
    Inv numCids s := by
  induction h with
  | start => exact Or.inl rfl
  | allocStep s hs ih =>
    obtain ⟨ent, comps, ce, heq, hai⟩ := inv_alloc ih
    exact Or.inr ⟨ent, comps, ce, heq, hai⟩
  | opStep s s' op d hs hstep ih => exact inv_step ih hstep
  | createStep s s' e hs hc ih => exact inv_create ih hc

/-! ### Characterizations of `create` -/

theorem create_first_free {s : ECS} {ent : Nat → Bool}
    (hent : (alloc s).entities = some ent)
    {m : Nat} (h1 : 1 ≤ m) (h2 : m < kMaxEntities) (hm : ent m = false)
    (hbelow : ∀ j, 1 ≤ j → j < m → ent j = true) :
    create s = some ({ alloc s with entities := some (updB ent m true) }, m) := by
  have hscan : scanLive ent 1 kMaxEntities = m :=
    scanLive_eq ent kMaxEntities 1 m h1 (by omega)
      (fun j hj1 hj2 => ⟨by omega, hbelow j hj1 hj2⟩)
      (fun hp => by rw [hm] at hp; exact Bool.false_ne_true hp.2)
  simp only [create, hent, hscan]
  rw [if_neg (by omega)]

theorem create_full {s : ECS} {ent : Nat → Bool}
    (hent : (alloc s).entities = some ent)
    (hfull : ∀ j, 1 ≤ j → j < kMaxEntities → ent j = true) :
    create s = some (alloc s, 0) := by
  have hk : kMaxEntities = 8192 := rfl
  have hscan : scanLive ent 1 kMaxEntities = kMaxEntities :=
    scanLive_eq ent kMaxEntities 1 kMaxEntities (by omega) (by omega)
      (fun j hj1 hj2 => ⟨hj2, hfull j hj1 hj2⟩)
      (fun hp => absurd hp.1 (by omega))
  simp only [create, hent, hscan]
  rw [if_pos (by omega : kMaxEntities < 1 ∨ kMaxEntities ≤ kMaxEntities)]

theorem create_success {s : ECS} {ent : Nat → Bool}
    (hent : (alloc s).entities = some ent)
    {s' : ECS} {e : Nat} (hc : create s = some (s', e)) (h0 : e ≠ 0) :
    1 ≤ e ∧ e < kMaxEntities ∧ ent e = false ∧
      s' = { alloc s with entities := some (updB ent e true) } := by
  have hk : kMaxEntities = 8192 := rfl
  simp only [create, hent] at hc
  by_cases hb : scanLive ent 1 kMaxEntities < 1 ∨
      kMaxEntities ≤ scanLive ent 1 kMaxEntities
  · rw [if_pos hb] at hc
    obtain ⟨-, h2⟩ := some_pair_inj hc
    exact absurd h2.symm h0
  · rw [if_neg hb] at hc
    push_neg at hb
    obtain ⟨h1, h2⟩ := some_pair_inj hc
    subst h2
    exact ⟨hb.1, hb.2, scanLive_stop ent kMaxEntities 1 (by omega) hb.2, h1.symm⟩

/-! ### The state after `k` creations from a fresh state -/

theorem entOne_eq : entOne = entUpTo 1 := by
  funext i
  by_cases hi : i = 1
  · subst hi
    rw [entOne, updB_same]
    exact (decide_eq_true (by omega)).symm
  · rw [entOne, updB_other _ hi]
    exact (decide_eq_false (by omega)).symm

theorem create_init_eq : create init = some (stateA, 1) := rfl

theorem stateA_eq : stateA = stateK 1 := by
  rw [stateA, stateK, entOne_eq]

theorem entUpTo_succ (k : Nat) : updB (entUpTo k) (k + 1) true = entUpTo (k + 1) := by
  funext i
  by_cases hi : i = k + 1
  · subst hi
    rw [updB_same]
    exact (decide_eq_true (by omega)).symm
  · rw [updB_other _ hi]
    exact decide_eq_decide.mpr (by omega)

theorem create_stateK {k : Nat} (hk1 : 1 ≤ k) (hk : k + 1 < kMaxEntities) :
    create (stateK k) = some (stateK (k + 1), k + 1) := by
  have hent : (alloc (stateK k)).entities = some (entUpTo k) := rfl
  have h := create_first_free hent (m := k + 1) (by omega) hk
    (decide_eq_false (by omega))
    (fun j hj1 hj2 => decide_eq_true (by omega))
  rw [h]
  have : updB (entUpTo k) (k + 1) true = entUpTo (k + 1) := entUpTo_succ k
  simp only [stateK]
  rw [this]
  rfl

theorem range'_concat_one (s n : Nat) :
    List.range' s (n + 1) = List.range' s n ++ [s + n] := by
  have h := @List.range'_concat 1 s n
  simpa using h

theorem createN_spec :
    ∀ k, 1 ≤ k → k ≤ kMaxEntities - 1 →
      createN k = some (stateK k, List.range' 1 k) := by
  have hkm : kMaxEntities = 8192 := rfl
  intro k
  induction k with
  | zero => intro h1 _; exact absurd h1 (by omega)
  | succ k ih =>
    intro h1 h2
    by_cases hk0 : k = 0
    · subst hk0
      simp only [createN, create_init_eq]
      rw [stateA_eq]
      rfl
    · have hspec := ih (by omega) (by omega)
      simp only [createN, hspec, create_stateK (k := k) (by omega) (by omega)]
      rw [range'_concat_one]
      have : 1 + k = k + 1 := by omega
      rw [this]

theorem create_fullState : create fullState = some (fullState, 0) := by
  have hkm : kMaxEntities = 8192 := rfl
  have hent : (alloc fullState).entities = some (entUpTo (kMaxEntities - 1)) := rfl
  exact create_full hent (fun j hj1 hj2 => decide_eq_true (by omega))

/-! ### Lookup helpers on allocated states -/

theorem getAll_alloc {numCids : Nat} {ent comps ce} {cid : Nat} (hc : cid < numCids) :
    getAll numCids ⟨ent, comps, some ce⟩ cid = ce cid := by
  simp [getAll, hc]

theorem getAll_badCid {numCids : Nat} (s : ECS) {cid : Nat} (hc : numCids ≤ cid) :
    getAll numCids s cid = [] := by
  rcases s with ⟨e, c, _ | ce⟩
  · rfl
  · simp [getAll, Nat.not_lt.mpr hc]

theorem getComponent_alloc {numCids : Nat} {ent ce} {comps : Nat → Nat → Option Nat}
    {cid eid : Nat} (he : eid < kMaxEntities) (hc : cid < numCids) :
    getComponent numCids ⟨ent, some comps, ce⟩ cid eid = some (comps cid eid) := by
  simp [getComponent, he, hc]

theorem getComponent_oob {numCids : Nat} (s : ECS) {cid eid : Nat}
    (h : ¬(eid < kMaxEntities ∧ cid < numCids)) :
    getComponent numCids s cid eid = some none := by
  simp only [getComponent, if_neg h]

theorem getComponent_init {numCids : Nat} {cid eid : Nat}
    (h : eid < kMaxEntities ∧ cid < numCids) :
    getComponent numCids init cid eid = none := by
  simp only [getComponent, if_pos h]
  rfl

/-! ### Liveness preservation (for id uniqueness and reissue) -/

theorem existsEntity_init (e : Nat) : existsEntity init e = false := rfl

theorem addComponent_entities {numCids : Nat} {ent : Nat → Bool}
    {comps : Nat → Nat → Option Nat} {ce : Nat → List Nat}
    {cid eid : Nat} {c : Option Nat} {s' : ECS} {d : List Nat}
    (h : addComponent numCids ⟨some ent, some comps, some ce⟩ cid eid c =
      some (s', d)) :
    s'.entities = some ent := by
  rcases c with _ | v
  · rw [addComponent_nullc] at h
    obtain ⟨rfl, -⟩ := some_pair_inj h
    rfl
  · by_cases hb : kMaxEntities ≤ eid
    · rw [addComponent_oob _ v hb] at h
      obtain ⟨rfl, -⟩ := some_pair_inj h
      rfl
    · rcases Bool.eq_false_or_eq_true (ent eid) with hl | hl
      swap
      · rw [addComponent_dead v hl] at h
        obtain ⟨rfl, -⟩ := some_pair_inj h
        rfl
      · by_cases hc : cid < numCids
        · rcases hs : comps cid eid with _ | w
          · rw [addComponent_append (Nat.not_le.mp hb) hl hc hs] at h
            obtain ⟨rfl, -⟩ := some_pair_inj h
            rfl
          · rw [addComponent_replace (Nat.not_le.mp hb) hl hc hs] at h
            obtain ⟨rfl, -⟩ := some_pair_inj h
            rfl
        · rw [addComponent_badCid v (Nat.not_le.mp hb) (Nat.not_lt.mp hc)] at h
          obtain ⟨rfl, -⟩ := some_pair_inj h
          rfl

theorem removeComponent_entities {numCids : Nat} {ent : Nat → Bool}
    {comps : Nat → Nat → Option Nat} {ce : Nat → List Nat}
    {cid eid : Nat} {s' : ECS} {d : List Nat}
    (h : removeComponent numCids ⟨some ent, some comps, some ce⟩ cid eid =
      some (s', d)) :
    s'.entities = some ent := by
  by_cases hb : kMaxEntities ≤ eid
  · rw [removeComponent_oob _ hb] at h
    obtain ⟨rfl, -⟩ := some_pair_inj h
    rfl
  · rcases Bool.eq_false_or_eq_true (ent eid) with hl | hl
    swap
    · rw [removeComponent_dead hl] at h
      obtain ⟨rfl, -⟩ := some_pair_inj h
      rfl
    · by_cases hc : cid < numCids
      · rcases hs : comps cid eid with _ | w
        · rw [removeComponent_emptySlot (Nat.not_le.mp hb) hl hc hs] at h
          obtain ⟨rfl, -⟩ := some_pair_inj h
          rfl
        · rw [removeComponent_active (Nat.not_le.mp hb) hl hc hs] at h
          obtain ⟨rfl, -⟩ := some_pair_inj h
          rfl
      · rw [removeComponent_badCid (Nat.not_le.mp hb) (Nat.not_lt.mp hc)] at h
        obtain ⟨rfl, -⟩ := some_pair_inj h
        rfl

theorem live_step {numCids : Nat} {s s' : ECS} {op : Op} {d : List Nat} {e : Nat}
    (hinv : Inv numCids s) (h : step numCids s op = some (s', d))
    (hop1 : op ≠ Op.destroy e) (hop2 : op ≠ Op.destroyAllOp)
    (hop3 : op ≠ Op.deallocOp)
    (hl : existsEntity s e = true) : existsEntity s' e = true := by
  rcases hinv with rfl | ⟨ent, comps, ce, rfl, hai⟩
  · rw [existsEntity_init] at hl
    exact absurd hl Bool.false_ne_true
  · have hle : ent e = true := hl
    cases op with
    | add cid eid c =>
      have he := addComponent_entities h
      show (match s'.entities with | none => false | some f => f e) = true
      rw [he]
      exact hle
    | remove cid eid =>
      have he := removeComponent_entities h
      show (match s'.entities with | none => false | some f => f e) = true
      rw [he]
      exact hle
    | destroy eid =>
      have hne : eid ≠ e := fun hc => hop1 (by rw [hc])
      by_cases h0 : eid = 0
      · subst h0
        rw [step, destroyNow_zero] at h
        obtain ⟨rfl, -⟩ := some_pair_inj h
        exact hl
      · by_cases hbe : kMaxEntities ≤ eid
        · rw [step, destroyNow_oob h0 hbe] at h
          exact absurd h (by simp)
        · rcases Bool.eq_false_or_eq_true (ent eid) with hld | hld
          · rw [step, destroyNow_active hai hld] at h
            obtain ⟨rfl, -⟩ := some_pair_inj h
            show updB ent eid false e = true
            rw [updB_other _ (fun hc => hne hc.symm)]
            exact hle
          · rw [step, destroyNow_dead hld h0 (Nat.not_le.mp hbe)] at h
            obtain ⟨rfl, -⟩ := some_pair_inj h
            exact hl
    | destroyAllOp => exact absurd rfl hop2
    | deallocOp => exact absurd rfl hop3

theorem live_run {numCids : Nat} {e : Nat} :
    ∀ (ops : List Op) (s s' : ECS), Inv numCids s →
      run numCids s ops = some s' →
      (∀ op ∈ ops, op ≠ Op.destroy e ∧ op ≠ Op.destroyAllOp ∧
        op ≠ Op.deallocOp) →
      existsEntity s e = true → existsEntity s' e = true := by
  intro ops
  induction ops with
  | nil =>
    intro s s' hinv h hops hl
    simp only [run, Option.some.injEq] at h
    exact h ▸ hl
  | cons op ops ih =>
    intro s s' hinv h hops hl
    simp only [run] at h
    rcases hstep : step numCids s op with _ | ⟨s1, d⟩
    · rw [hstep] at h
      exact absurd h (by simp)
    · rw [hstep] at h
      obtain ⟨ho1, ho2, ho3⟩ := hops op (List.mem_cons_self op ops)
      exact ih s1 s' (inv_step hinv hstep) h
        (fun o ho => hops o (List.mem_cons_of_mem op ho))
        (live_step hinv hstep ho1 ho2 ho3 hl)

/-! ### Liveness and invariant preservation for id-lifecycle sequences -/

theorem live_destroyNow {numCids : Nat} {s s' : ECS} {eid : Nat}
    {d : List Nat} {e : Nat} (hinv : Inv numCids s)
    (h : destroyNow numCids s eid = some (s', d)) (hne : eid ≠ e)
    (hl : existsEntity s e = true) : existsEntity s' e = true := by
  rcases hinv with rfl | ⟨ent, comps, ce, rfl, hai⟩
  · rw [existsEntity_init] at hl
    exact absurd hl Bool.false_ne_true
  · have hle : ent e = true := hl
    by_cases h0 : eid = 0
    · subst h0
      rw [destroyNow_zero] at h
      obtain ⟨rfl, -⟩ := some_pair_inj h
      exact hl
    · by_cases hbe : kMaxEntities ≤ eid
      · rw [destroyNow_oob h0 hbe] at h
        exact absurd h (by simp)
      · rcases Bool.eq_false_or_eq_true (ent eid) with hld | hld
        · rw [destroyNow_active hai hld] at h
          obtain ⟨rfl, -⟩ := some_pair_inj h
          show updB ent eid false e = true
          rw [updB_other _ (fun hc => hne hc.symm)]
          exact hle
        · rw [destroyNow_dead hld h0 (Nat.not_le.mp hbe)] at h
          obtain ⟨rfl, -⟩ := some_pair_inj h
          exact hl

theorem live_create {numCids : Nat} {s s' : ECS} {e e2 : Nat}
    (hinv : Inv numCids s) (hc : create s = some (s', e2))
    (hl : existsEntity s e = true) : existsEntity s' e = true := by
  rcases hinv with rfl | ⟨ent, comps, ce, rfl, hai⟩
  · rw [existsEntity_init] at hl
    exact absurd hl Bool.false_ne_true
  · have hle : ent e = true := hl
    have hent : (alloc (⟨some ent, some comps, some ce⟩ : ECS)).entities = some ent := rfl
    simp only [create, hent] at hc
    by_cases hb : scanLive ent 1 kMaxEntities < 1 ∨
        kMaxEntities ≤ scanLive ent 1 kMaxEntities
    · rw [if_pos hb] at hc
      obtain ⟨rfl, -⟩ := some_pair_inj hc
      exact hl
    · rw [if_neg hb] at hc
      obtain ⟨rfl, -⟩ := some_pair_inj hc
      show updB ent (scanLive ent 1 kMaxEntities) true e = true
      by_cases hee : e = scanLive ent 1 kMaxEntities
      · rw [hee, updB_same]
      · rw [updB_other _ hee]
        exact hle

theorem inv_lifeStep {numCids : Nat} {s s' : ECS} {op : LifeOp}
    (hinv : Inv numCids s) (h : lifeStep numCids s op = some s') :
    Inv numCids s' := by
  cases op with
  | createOp =>
    simp only [lifeStep] at h
    rcases hc : create s with _ | ⟨s1, e⟩
    · rw [hc] at h
      exact absurd h (by simp)
    · rw [hc] at h
      obtain rfl : s1 = s' := by simpa using h
      exact inv_create hinv hc
  | destroyOp eid =>
    simp only [lifeStep] at h
    rcases hc : destroyNow numCids s eid with _ | ⟨s1, d⟩
    · rw [hc] at h
      exact absurd h (by simp)
    · rw [hc] at h
      obtain rfl : s1 = s' := by simpa using h
      exact inv_destroyNow hinv hc
  | destroyAllOp =>
    simp only [lifeStep] at h
    rcases hc : destroyAll numCids s with _ | ⟨s1, d⟩
    · rw [hc] at h
      exact absurd h (by simp)
    · rw [hc] at h
      obtain rfl : s1 = s' := by simpa using h
      exact inv_destroyAll hinv hc

theorem live_lifeStep {numCids : Nat} {s s' : ECS} {op : LifeOp} {e : Nat}
    (hinv : Inv numCids s) (h : lifeStep numCids s op = some s')
    (hop1 : op ≠ LifeOp.destroyOp e) (hop2 : op ≠ LifeOp.destroyAllOp)
    (hl : existsEntity s e = true) : existsEntity s' e = true := by
  cases op with
  | createOp =>
    simp only [lifeStep] at h
    rcases hc : create s with _ | ⟨s1, e2⟩
    · rw [hc] at h
      exact absurd h (by simp)
    · rw [hc] at h
      obtain rfl : s1 = s' := by simpa using h
      exact live_create hinv hc hl
  | destroyOp eid =>
    have hne : eid ≠ e := fun hc => hop1 (by rw [hc])
    simp only [lifeStep] at h
    rcases hc : destroyNow numCids s eid with _ | ⟨s1, d⟩
    · rw [hc] at h
      exact absurd h (by simp)
    · rw [hc] at h
      obtain rfl : s1 = s' := by simpa using h
      exact live_destroyNow hinv hc hne hl
  | destroyAllOp => exact absurd rfl hop2

theorem inv_runLife {numCids : Nat} :
    ∀ (ops : List LifeOp) (s s' : ECS), Inv numCids s →
      runLife numCids s ops = some s' → Inv numCids s' := by
  intro ops
  induction ops with
  | nil =>
    intro s s' hinv h
    simp only [runLife, Option.some.injEq] at h
    exact h ▸ hinv
  | cons op ops ih =>
    intro s s' hinv h
    simp only [runLife] at h
    rcases hstep : lifeStep numCids s op with _ | s1
    · rw [hstep] at h
      exact absurd h (by simp)
    · rw [hstep] at h
      exact ih s1 s' (inv_lifeStep hinv hstep) h

theorem live_runLife {numCids : Nat} {e : Nat} :
    ∀ (ops : List LifeOp) (s s' : ECS), Inv numCids s →
      runLife numCids s ops = some s' →
      (∀ op ∈ ops, op ≠ LifeOp.destroyOp e ∧ op ≠ LifeOp.destroyAllOp) →
      existsEntity s e = true → existsEntity s' e = true := by
  intro ops
  induction ops with
  | nil =>
    intro s s' hinv h hops hl
    simp only [runLife, Option.some.injEq] at h
    exact h ▸ hl
  | cons op ops ih =>
    intro s s' hinv h hops hl
    simp only [runLife] at h
    rcases hstep : lifeStep numCids s op with _ | s1
    · rw [hstep] at h
      exact absurd h (by simp)
    · rw [hstep] at h
      obtain ⟨ho1, ho2⟩ := hops op (List.mem_cons_self op ops)
      exact ih s1 s' (inv_lifeStep hinv hstep) h
        (fun o ho => hops o (List.mem_cons_of_mem op ho))
        (live_lifeStep hinv hstep ho1 ho2 hl)

/-! ### The sparse/dense invariant as an observable statement -/

theorem inv_of_fields {numCids : Nat} {ent : Nat → Bool}
    {comps : Nat → Nat → Option Nat} {ce : Nat → List Nat}
    (hinv : Inv numCids (⟨some ent, some comps, some ce⟩ : ECS)) :
    AllocInv numCids ent comps ce := by
  rcases hinv with heq | ⟨ent2, comps2, ce2, heq, hai⟩
  · exact absurd heq (by simp [init])
  · simp only [ECS.mk.injEq, Option.some.injEq] at heq
    obtain ⟨rfl, rfl, rfl⟩ := heq
    exact hai

theorem inv_conclusion {numCids : Nat} {s : ECS} (hinv : Inv numCids s)
    (T E : Nat) :
    (E ∈ getAll numCids s T ↔ ∃ v, getComponent numCids s T E = some (some v)) ∧
      (getAll numCids s T).count E ≤ 1 := by
  rcases hinv with rfl | ⟨ent, comps, ce, rfl, hai⟩
  · constructor
    · constructor
      · intro hmem
        exact absurd hmem (by simp [getAll, init])
      · rintro ⟨v, hv⟩
        by_cases hb : E < kMaxEntities ∧ T < numCids
        · rw [getComponent_init hb] at hv
          exact absurd hv (by simp)
        · rw [getComponent_oob _ hb] at hv
          exact absurd hv (by simp)
    · simp [getAll, init]
  · by_cases hT : T < numCids
    · rw [getAll_alloc hT]
      constructor
      · constructor
        · intro hmem
          have hne := ((hai.2.2.1 T hT).1 E).mp hmem
          have hE : E < kMaxEntities := (hai.2.2.2 T E hne).2.2.1
          rcases hv : comps T E with _ | v
          · exact absurd hv hne
          · exact ⟨v, by rw [getComponent_alloc hE hT, hv]⟩
        · rintro ⟨v, hv⟩
          by_cases hE : E < kMaxEntities
          · rw [getComponent_alloc hE hT] at hv
            have : comps T E = some v := by simpa using hv
            exact ((hai.2.2.1 T hT).1 E).mpr (by rw [this]; exact Option.some_ne_none v)
          · rw [getComponent_oob _ (fun hp => hE hp.1)] at hv
            exact absurd hv (by simp)
      · exact List.nodup_iff_count_le_one.mp (hai.2.2.1 T hT).2 E
    · rw [getAll_badCid _ (Nat.not_lt.mp hT)]
      constructor
      · constructor
        · intro hmem
          exact absurd hmem (by simp)
        · rintro ⟨v, hv⟩
          rw [getComponent_oob _ (fun hp => hT hp.2)] at hv
          exact absurd hv (by simp)
      · simp

/-! ### Reachable concrete states used to instantiate the theorems -/

theorem reach_allocState : Reach 1 allocState :=
  Reach.allocStep init Reach.start

theorem reach_stateA : Reach 1 stateA :=
  Reach.createStep init stateA 1 Reach.start rfl

theorem step_stateA_add : step 1 stateA (Op.add 0 1 (some 7)) = some (stateB, []) :=
  rfl

theorem reach_stateB : Reach 1 stateB :=
  Reach.opStep stateA stateB (Op.add 0 1 (some 7)) [] reach_stateA step_stateA_add

/-! ### C1 -/

/-- C1: for every component-type tag `T < numCids` and entity id `E`, after any
sequence of `addComponent`, `removeComponent`, `destroyNow`, `destroyAll` and
`dealloc` operations starting from a reachable allocated state, `E` appears in
the dense list `getAll T` iff the sparse slot `getComponent T E` returns a
non-null pointer, and `E` appears in `getAll T` at most once.  (Sequences in
which an operation dereferences a torn-down null array have no result state and
are excluded by the `run … = some s` hypothesis.) -/
theorem sparse_dense_consistency (numCids : Nat) (s0 : ECS) (ops : List Op)
    (s : ECS) (T E : Nat) (hreach : Reach numCids s0)
    (_halloc : s0.components ≠ none)
    (hrun : run numCids s0 ops = some s) (_hT : T < numCids) :
    (E ∈ getAll numCids s T ↔ ∃ v, getComponent numCids s T E = some (some v)) ∧
      (getAll numCids s T).count E ≤ 1 :=
  inv_conclusion (inv_run ops s0 s (inv_reach hreach) hrun) T E

/-- Witness for C1 at the freshly allocated state and the empty op sequence. -/
theorem sparse_dense_consistency_instance :
    (1 ∈ getAll 1 allocState 0 ↔
      ∃ v, getComponent 1 allocState 0 1 = some (some v)) ∧
      (getAll 1 allocState 0).count 1 ≤ 1 :=
  sparse_dense_consistency 1 allocState [] allocState 0 1 reach_allocState
    (Option.some_ne_none _) rfl (by decide)

/-! ### C5 -/

/-- C5: in every reachable allocated state, `getComponent T eid` returns the
null pointer whenever `T` is out of the tag range, or `eid` is out of range,
or `eid` is not live, or the sparse slot is empty; in particular every lookup
for entity id `0` returns the null pointer (pointer form) or the shared empty
sentinel (reference form `get`). -/
theorem getComponent_absent_contract (numCids : Nat) (s : ECS)
    (ent : Nat → Bool) (comps : Nat → Nat → Option Nat) (ce : Nat → List Nat)
    (cid eid : Nat) (hreach : Reach numCids s) (hent : s.entities = some ent)
    (hcomps : s.components = some comps) (hce : s.componentEids = some ce) :
    ((numCids ≤ cid ∨ kMaxEntities ≤ eid ∨ ent eid = false ∨
        comps cid eid = none) →
      getComponent numCids s cid eid = some none) ∧
    getComponent numCids s cid 0 = some none ∧
    get numCids s cid 0 = some (Sum.inr ()) := by
  obtain ⟨se, sc, sce⟩ := s
  obtain rfl : se = some ent := hent
  obtain rfl : sc = some comps := hcomps
  obtain rfl : sce = some ce := hce
  have hai := inv_of_fields (inv_reach hreach)
  have hmain : ∀ e, (numCids ≤ cid ∨ kMaxEntities ≤ e ∨ ent e = false ∨
      comps cid e = none) →
      getComponent numCids ⟨some ent, some comps, some ce⟩ cid e = some none := by
    intro e hdisj
    by_cases hb : e < kMaxEntities ∧ cid < numCids
    · rw [getComponent_alloc hb.1 hb.2]
      rcases hdisj with h | h | h | h
      · exact absurd hb.2 (by omega)
      · exact absurd hb.1 (by omega)
      · rcases hv : comps cid e with _ | v
        · rfl
        · have := (hai.2.2.2 cid e (by rw [hv]; exact Option.some_ne_none v)).1
          rw [this] at h
          exact absurd h (by simp)
      · rw [h]
    · exact getComponent_oob _ hb
  refine ⟨hmain eid, hmain 0 (Or.inr (Or.inr (Or.inl hai.1))), ?_⟩
  rw [get, hmain 0 (Or.inr (Or.inr (Or.inl hai.1)))]

/-- Witness for C5: a dead id, and id `0`, at a reachable allocated state. -/
theorem getComponent_absent_contract_instance :
    getComponent 1 stateA 0 2 = some none ∧
    getComponent 1 stateA 0 0 = some none ∧
    get 1 stateA 0 0 = some (Sum.inr ()) :=
  (fun h => ⟨h.1 (Or.inr (Or.inr (Or.inl rfl))), h.2.1, h.2.2⟩)
    (getComponent_absent_contract 1 stateA entOne (fun _ _ => none) (fun _ => [])
      0 2 reach_stateA rfl rfl rfl)

/-! ### C7 -/

/-- C7: `dealloc` destroys every stored component instance (via the cascading
`destroyAll`) and leaves the engine in the unallocated state `init` equal to
the state before first use; calling it on the never-allocated state (hence
also twice in a row, or with zero entities created) succeeds and yields that
same state, so teardown is idempotent. -/
theorem dealloc_contract (numCids : Nat) :
    (∀ s : ECS, Reach numCids s →
      ∃ d, dealloc numCids s = some (init, d) ∧
        ∀ comps c e v, s.components = some comps → comps c e = some v →
          v ∈ d) ∧
    dealloc numCids init = some (init, []) :=
  ⟨fun _ hr => dealloc_sound (inv_reach hr), dealloc_init⟩

/-- Witness for C7: teardown from the state before first use. -/
theorem dealloc_contract_instance :
    (∃ d, dealloc 1 init = some (init, d) ∧
      ∀ comps c e v, init.components = some comps → comps c e = some v →
        v ∈ d) ∧
    dealloc 1 init = some (init, []) :=
  ⟨(dealloc_contract 1).1 init Reach.start, (dealloc_contract 1).2⟩

/-! ### C10 -/

/-- C10: immediately after `create` returns a nonzero id `e` — including a
previously destroyed and reused id — the new entity holds no components: for
every tag `cid < numCids` the sparse lookup returns the null pointer and `e`
does not appear in the dense list. -/
theorem create_fresh_components (numCids : Nat) (s s' : ECS) (e : Nat)
    (hreach : Reach numCids s) (hc : create s = some (s', e)) (h0 : e ≠ 0)
    (cid : Nat) (hcid : cid < numCids) :
    getComponent numCids s' cid e = some none ∧ e ∉ getAll numCids s' cid := by
  obtain ⟨ent, comps, ce, heq, hai⟩ := inv_alloc (inv_reach hreach)
  have hent : (alloc s).entities = some ent := by rw [heq]
  obtain ⟨h1, h2, hfree, hs'⟩ := create_success hent hc h0
  have hslot : comps cid e = none := by
    rcases hv : comps cid e with _ | v
    · rfl
    · have := (hai.2.2.2 cid e (by rw [hv]; exact Option.some_ne_none v)).1
      rw [this] at hfree
      exact absurd hfree (by simp)
  have hs'2 : s' = ⟨some (updB ent e true), some comps, some ce⟩ := by
    rw [hs', heq]
  subst hs'2
  constructor
  · rw [getComponent_alloc h2 hcid, hslot]
  · rw [getAll_alloc hcid]
    intro hmem
    exact ((hai.2.2.1 cid hcid).1 e).mp hmem hslot

/-- Witness for C10: the first creation from the fresh state. -/
theorem create_fresh_components_instance :
    getComponent 1 stateA 0 1 = some none ∧ 1 ∉ getAll 1 stateA 0 :=
  create_fresh_components 1 init stateA 1 Reach.start rfl (by decide) 0
    (by decide)

/-! ### C2 -/

/-- C2: adding a component of type `cid` to a live entity `eid` that already
holds an instance `w` of that type (with a non-null new component `v`)
deletes exactly the previously stored instance — the list of destroyed
instances is `[w]` — stores `v` in the slot, and leaves exactly one entry for
`eid` in the dense list (no duplicate is created by the replacement). -/
theorem replace_semantics (numCids : Nat) (s : ECS) (cid eid w v : Nat)
    (hreach : Reach numCids s)
    (hold : getComponent numCids s cid eid = some (some w)) :
    ∃ s', addComponent numCids s cid eid (some v) = some (s', [w]) ∧
      getComponent numCids s' cid eid = some (some v) ∧
      (getAll numCids s' cid).count eid = 1 := by
  have hinv := inv_reach hreach
  rcases hinv with rfl | ⟨ent, comps, ce, rfl, hai⟩
  · by_cases hb : eid < kMaxEntities ∧ cid < numCids
    · rw [getComponent_init hb] at hold
      exact absurd hold (by simp)
    · rw [getComponent_oob _ hb] at hold
      exact absurd hold (by simp)
  · by_cases hb : eid < kMaxEntities ∧ cid < numCids
    swap
    · rw [getComponent_oob _ hb] at hold
      exact absurd hold (by simp)
    · obtain ⟨hE, hT⟩ := hb
      rw [getComponent_alloc hE hT] at hold
      have hsw : comps cid eid = some w := by simpa using hold
      have hl : ent eid = true :=
        (hai.2.2.2 cid eid (by rw [hsw]; exact Option.some_ne_none w)).1
      refine ⟨_, addComponent_replace hE hl hT hsw, ?_, ?_⟩
      · rw [getComponent_alloc hE hT, upd2_same]
      · rw [getAll_alloc hT, updL_same]
        have hnd : (ce cid).Nodup := (hai.2.2.1 cid hT).2
        have hnm : eid ∉ (ce cid).erase eid :=
          fun hm => (hnd.mem_erase_iff.mp hm).1 rfl
        rw [List.count_append, List.count_eq_zero.mpr hnm]
        simp

/-- Witness for C2: replacing component `7` by `9` on entity `1`. -/
theorem replace_semantics_instance :
    ∃ s', addComponent 1 stateB 0 1 (some 9) = some (s', [7]) ∧
      getComponent 1 s' 0 1 = some (some 9) ∧
      (getAll 1 s' 0).count 1 = 1 :=
  replace_semantics 1 stateB 0 1 7 9 reach_stateB rfl

/-! ### C3 -/

/-- C3 (amended): in a reachable allocated state, `destroyNow eid` is a no-op
(the state is returned unchanged and nothing is deleted) when `eid` is `0` or
when `eid` is in range `[0, kMaxEntities)` with its liveness flag false; for a
nonzero id at or beyond `kMaxEntities` the C++ performs the unchecked
out-of-bounds write `entities[eid] = false` — undefined behaviour, the crash
marker `none` — rather than a no-op; otherwise (live id) it deletes the
entity's component from every type's store in ascending tag order (the
destroyed instances are exactly the stored column, in tag order) and clears
the liveness flag, so that afterwards `eid` is absent from every type's dense
list and every `getComponent` lookup for `eid` returns the null pointer. -/
theorem destroyNow_contract (numCids : Nat) (s : ECS) (ent : Nat → Bool)
    (comps : Nat → Nat → Option Nat) (ce : Nat → List Nat) (eid : Nat)
    (hreach : Reach numCids s) (hent : s.entities = some ent)
    (hcomps : s.components = some comps) (hce : s.componentEids = some ce) :
    ((eid = 0 ∨ (eid < kMaxEntities ∧ ent eid = false)) →
      destroyNow numCids s eid = some (s, [])) ∧
    (eid ≠ 0 → kMaxEntities ≤ eid → destroyNow numCids s eid = none) ∧
    (ent eid = true →
      ∃ s', destroyNow numCids s eid =
          some (s', (List.range numCids).filterMap (fun cid => comps cid eid)) ∧
        existsEntity s' eid = false ∧
        ∀ cid, getComponent numCids s' cid eid = some none ∧
          eid ∉ getAll numCids s' cid) := by
  obtain ⟨se, sc, sce⟩ := s
  obtain rfl : se = some ent := hent
  obtain rfl : sc = some comps := hcomps
  obtain rfl : sce = some ce := hce
  have hai := inv_of_fields (inv_reach hreach)
  refine ⟨?_, fun h0 hb => destroyNow_oob h0 hb, ?_⟩
  · rintro (rfl | ⟨he, hdead⟩)
    · exact destroyNow_zero _
    · by_cases h0 : eid = 0
      · subst h0
        exact destroyNow_zero _
      · exact destroyNow_dead hdead h0 he
  · intro hl
    refine ⟨_, destroyNow_active hai hl, ?_, ?_⟩
    · show updB ent eid false eid = false
      exact updB_same ent eid false
    · intro cid
      constructor
      · by_cases hb : eid < kMaxEntities ∧ cid < numCids
        · rw [getComponent_alloc hb.1 hb.2]
          have hcc : clearCol comps eid numCids cid eid = none := by
            simp [clearCol, hb.2]
          rw [hcc]
        · exact getComponent_oob _ hb
      · by_cases hcid : cid < numCids
        · rw [getAll_alloc hcid]
          have hee : eraseAll ce eid numCids cid = (ce cid).erase eid := by
            simp [eraseAll, hcid]
          rw [hee]
          intro hm
          exact ((hai.2.2.1 cid hcid).2.mem_erase_iff.mp hm).1 rfl
        · rw [getAll_badCid _ (Nat.not_lt.mp hcid)]
          exact List.not_mem_nil eid

/-- Witness for C3 (amended): at a reachable state with one live entity, the
in-range dead id `2` is a no-op, the out-of-range id `8192` hits the
out-of-bounds write (crash marker), and the live id `1` is fully destroyed. -/
theorem destroyNow_contract_instance :
    destroyNow 1 stateA 2 = some (stateA, []) ∧
    destroyNow 1 stateA 8192 = none ∧
    (∃ s', destroyNow 1 stateA 1 =
        some (s', (List.range 1).filterMap (fun _ => (none : Option Nat))) ∧
      existsEntity s' 1 = false ∧
      ∀ cid, getComponent 1 s' cid 1 = some none ∧ 1 ∉ getAll 1 s' cid) :=
  ⟨(destroyNow_contract 1 stateA entOne (fun _ _ => none) (fun _ => []) 2
      reach_stateA rfl rfl rfl).1 (Or.inr ⟨by decide, rfl⟩),
   (destroyNow_contract 1 stateA entOne (fun _ _ => none) (fun _ => []) 8192
      reach_stateA rfl rfl rfl).2.1 (by decide) (by decide),
   (destroyNow_contract 1 stateA entOne (fun _ _ => none) (fun _ => []) 1
      reach_stateA rfl rfl rfl).2.2 rfl⟩

/-- Counterexample to C3 as stated: in the reachable allocated state
`allocState`, the id `8192 = kMaxEntities` is not live (the liveness table is
everywhere false), yet `destroyNow` is not a no-op: the C++ performs the
unchecked out-of-bounds write `entities[8192] = false` past the end of the
liveness array (undefined behaviour), modelled by the crash marker `none`. -/
theorem destroyNow_contract_counterexample :
    Reach 1 allocState ∧
    allocState.entities = some (fun _ => false) ∧
    (fun _ => (false : Bool)) 8192 = false ∧
    destroyNow 1 allocState 8192 = none ∧
    destroyNow 1 allocState 8192 ≠ some (allocState, []) :=
  ⟨reach_allocState, rfl, rfl, rfl,
   fun h => Option.noConfusion
     (show (none : Option (ECS × List Nat)) = some (allocState, []) from h)⟩

/-! ### C8 -/

/-- C8: the dense list is insertion-ordered.  Adding a component on a
previously empty slot of a live entity appends `eid` at the end of the dense
list (other lists unchanged); removing a held component erases `eid`
positionally — the list decomposes as `l1 ++ eid :: l2` and becomes
`l1 ++ l2`, so all surviving entries keep their relative order (not
swap-with-last) — and other lists are unchanged. -/
theorem dense_order_contract (numCids : Nat) (s : ECS) (cid eid : Nat)
    (hreach : Reach numCids s) :
    (∀ v, getComponent numCids s cid eid = some none → cid < numCids →
      existsEntity s eid = true →
      ∃ s', addComponent numCids s cid eid (some v) = some (s', []) ∧
        getAll numCids s' cid = getAll numCids s cid ++ [eid] ∧
        ∀ cid2, cid2 ≠ cid →
          getAll numCids s' cid2 = getAll numCids s cid2) ∧
    (∀ w, getComponent numCids s cid eid = some (some w) →
      ∃ s' l1 l2, removeComponent numCids s cid eid = some (s', [w]) ∧
        getAll numCids s cid = l1 ++ eid :: l2 ∧ eid ∉ l1 ∧ eid ∉ l2 ∧
        getAll numCids s' cid = l1 ++ l2 ∧
        ∀ cid2, cid2 ≠ cid →
          getAll numCids s' cid2 = getAll numCids s cid2) := by
  have hinv := inv_reach hreach
  constructor
  · intro v hempty hcid hlive
    rcases hinv with rfl | ⟨ent, comps, ce, rfl, hai⟩
    · rw [existsEntity_init] at hlive
      exact absurd hlive Bool.false_ne_true
    · have hl : ent eid = true := hlive
      have hE : eid < kMaxEntities := by
        by_contra hb
        rw [hai.2.1 eid (by omega)] at hl
        exact Bool.false_ne_true hl
      rw [getComponent_alloc hE hcid] at hempty
      have hs : comps cid eid = none := by simpa using hempty
      refine ⟨_, addComponent_append hE hl hcid hs, ?_, ?_⟩
      · rw [getAll_alloc hcid, getAll_alloc hcid, updL_same]
      · intro cid2 hne
        by_cases hc2 : cid2 < numCids
        · rw [getAll_alloc hc2, getAll_alloc hc2, updL_other _ hne]
        · rw [getAll_badCid _ (Nat.not_lt.mp hc2), getAll_badCid _ (Nat.not_lt.mp hc2)]
  · intro w hold
    rcases hinv with rfl | ⟨ent, comps, ce, rfl, hai⟩
    · by_cases hb : eid < kMaxEntities ∧ cid < numCids
      · rw [getComponent_init hb] at hold
        exact absurd hold (by simp)
      · rw [getComponent_oob _ hb] at hold
        exact absurd hold (by simp)
    · by_cases hb : eid < kMaxEntities ∧ cid < numCids
      swap
      · rw [getComponent_oob _ hb] at hold
        exact absurd hold (by simp)
      · obtain ⟨hE, hT⟩ := hb
        rw [getComponent_alloc hE hT] at hold
        have hsw : comps cid eid = some w := by simpa using hold
        have hl : ent eid = true :=
          (hai.2.2.2 cid eid (by rw [hsw]; exact Option.some_ne_none w)).1
        have hmem : eid ∈ ce cid :=
          ((hai.2.2.1 cid hT).1 eid).mpr (by rw [hsw]; exact Option.some_ne_none w)
        have hnd : (ce cid).Nodup := (hai.2.2.1 cid hT).2
        obtain ⟨l1, l2, hdec⟩ := List.append_of_mem hmem
        have hnd2 := hdec ▸ hnd
        obtain ⟨hnd1, hndc, hdisj⟩ := List.nodup_append.mp hnd2
        have hnl2 : eid ∉ l2 := (List.nodup_cons.mp hndc).1
        have hnl1 : eid ∉ l1 := fun hm => hdisj hm (List.mem_cons_self eid l2)
        have herase : (ce cid).erase eid = l1 ++ l2 := by
          rw [hdec, List.erase_append_right _ hnl1, List.erase_cons_head]
        refine ⟨_, l1, l2, removeComponent_active hE hl hT hsw, ?_, hnl1, hnl2,
          ?_, ?_⟩
        · rw [getAll_alloc hT, hdec]
        · rw [getAll_alloc hT, updL_same, herase]
        · intro cid2 hne
          by_cases hc2 : cid2 < numCids
          · rw [getAll_alloc hc2, getAll_alloc hc2, updL_other _ hne]
          · rw [getAll_badCid _ (Nat.not_lt.mp hc2),
              getAll_badCid _ (Nat.not_lt.mp hc2)]

/-- Witness for C8: appending on an empty slot at `stateA` and positionally
erasing the held component at `stateB`. -/
theorem dense_order_contract_instance :
    (∃ s', addComponent 1 stateA 0 1 (some 7) = some (s', []) ∧
      getAll 1 s' 0 = getAll 1 stateA 0 ++ [1] ∧
      ∀ cid2, cid2 ≠ 0 → getAll 1 s' cid2 = getAll 1 stateA cid2) ∧
    (∃ s' l1 l2, removeComponent 1 stateB 0 1 = some (s', [7]) ∧
      getAll 1 stateB 0 = l1 ++ 1 :: l2 ∧ 1 ∉ l1 ∧ 1 ∉ l2 ∧
      getAll 1 s' 0 = l1 ++ l2 ∧
      ∀ cid2, cid2 ≠ 0 → getAll 1 s' cid2 = getAll 1 stateB cid2) :=
  ⟨(dense_order_contract 1 stateA 0 1 reach_stateA).1 7 rfl (by decide) rfl,
   (dense_order_contract 1 stateB 0 1 reach_stateB).2 7 rfl⟩

/-! ### C4 -/

/-- C4: `create` first ensures allocation; it returns the smallest id in
`[1, kMaxEntities)` whose liveness flag is false, marking exactly that flag
true, and when every id in that range is live it signals exhaustion by
returning the invalid id `0` with the post-allocation state unchanged (no
entity marked live).  Consequently, from a fresh state, `kMaxEntities - 1`
consecutive calls succeed with exactly the pairwise-distinct ids
`1, …, kMaxEntities - 1`, all in `[1, kMaxEntities)`, and the next call
returns `0`. -/
theorem create_contract :
    (∀ (s : ECS) (ent : Nat → Bool), (alloc s).entities = some ent →
      ((∀ j, 1 ≤ j → j < kMaxEntities → ent j = true) →
        create s = some (alloc s, 0)) ∧
      (∀ m, 1 ≤ m → m < kMaxEntities → ent m = false →
        (∀ j, 1 ≤ j → j < m → ent j = true) →
        create s =
          some ({ alloc s with entities := some (updB ent m true) }, m))) ∧
    createN (kMaxEntities - 1) =
      some (fullState, List.range' 1 (kMaxEntities - 1)) ∧
    (List.range' 1 (kMaxEntities - 1)).Nodup ∧
    (∀ i, i ∈ List.range' 1 (kMaxEntities - 1) → 1 ≤ i ∧ i < kMaxEntities) ∧
    create fullState = some (fullState, 0) := by
  have hk : kMaxEntities = 8192 := rfl
  refine ⟨fun s ent hent =>
      ⟨fun hfull => create_full hent hfull,
       fun m h1 h2 hm hb => create_first_free hent h1 h2 hm hb⟩,
    createN_spec (kMaxEntities - 1) (by omega) (le_refl _),
    List.nodup_range' 1 (kMaxEntities - 1),
    fun i hi => ?_, create_fullState⟩
  have hmem := List.mem_range'_1.mp hi
  omega

/-- Witness for C4: the first call from the fresh state returns the smallest
free id `1`; the closed capacity-boundary conjuncts are instantiated as-is. -/
theorem create_contract_instance :
    create init =
      some ({ alloc init with
                entities := some (updB (fun _ => false) 1 true) }, 1) ∧
    createN (kMaxEntities - 1) =
      some (fullState, List.range' 1 (kMaxEntities - 1)) ∧
    create fullState = some (fullState, 0) :=
  ⟨(create_contract.1 init (fun _ => false) rfl).2 1 (by decide) (by decide)
      rfl (fun j hj1 hj2 => absurd hj2 (by omega)),
   create_contract.2.1, create_contract.2.2.2.2⟩

/-! ### C9 -/

/-- C9: a successful `create` returns an id that was not live before the call
and is live after it — so no two simultaneously-live entities ever hold the
same identifier — and an id returned by `create` is returned again by a later
`create` only if the entity was destroyed in between: after any intervening
sequence of `create`, `destroyNow` and `destroyAll` operations none of which
is `destroyNow` of that id or `destroyAll`, a later `create` cannot return
the same id. -/
theorem id_uniqueness (numCids : Nat) (s s1 s2 s3 : ECS) (e e2 : Nat)
    (ops : List LifeOp) (hreach : Reach numCids s)
    (hc1 : create s = some (s1, e)) (h0 : e ≠ 0)
    (hrun : runLife numCids s1 ops = some s2)
    (hops : ∀ op ∈ ops, op ≠ LifeOp.destroyOp e ∧ op ≠ LifeOp.destroyAllOp)
    (hc2 : create s2 = some (s3, e2)) :
    existsEntity s e = false ∧ existsEntity s1 e = true ∧ e2 ≠ e := by
  have hinv := inv_reach hreach
  obtain ⟨ent, comps, ce, heq, hai⟩ := inv_alloc hinv
  have hent : (alloc s).entities = some ent := by rw [heq]
  obtain ⟨h1, h2, hfree, hs1⟩ := create_success hent hc1 h0
  have hlive1 : existsEntity s1 e = true := by
    rw [hs1, heq]
    show updB ent e true e = true
    exact updB_same ent e true
  have hfalse : existsEntity s e = false := by
    rcases hinv with rfl | ⟨ent2, comps2, ce2, rfl, hai2⟩
    · rfl
    · have halloc :
          alloc (⟨some ent2, some comps2, some ce2⟩ : ECS) =
            ⟨some ent2, some comps2, some ce2⟩ := rfl
      rw [halloc] at heq
      simp only [ECS.mk.injEq, Option.some.injEq] at heq
      obtain ⟨hee, -, -⟩ := heq
      show ent2 e = false
      rw [hee]
      exact hfree
  have hreach1 : Reach numCids s1 := Reach.createStep s s1 e hreach hc1
  have hinvs2 : Inv numCids s2 := inv_runLife ops s1 s2 (inv_reach hreach1) hrun
  have hlive2 : existsEntity s2 e = true :=
    live_runLife ops s1 s2 (inv_reach hreach1) hrun hops hlive1
  obtain ⟨ent2, comps2, ce2, heq2, hai2⟩ := inv_alloc hinvs2
  have hent2 : (alloc s2).entities = some ent2 := by rw [heq2]
  by_cases h02 : e2 = 0
  · exact ⟨hfalse, hlive1, by rw [h02]; exact fun hc => h0 hc.symm⟩
  · obtain ⟨-, -, hfree2, -⟩ := create_success hent2 hc2 h02
    refine ⟨hfalse, hlive1, fun hcontra => ?_⟩
    rw [hcontra] at hfree2
    rcases hinvs2 with rfl | ⟨ent3, comps3, ce3, rfl, hai3⟩
    · rw [existsEntity_init] at hlive2
      exact absurd hlive2 Bool.false_ne_true
    · have halloc2 :
          alloc (⟨some ent3, some comps3, some ce3⟩ : ECS) =
            ⟨some ent3, some comps3, some ce3⟩ := rfl
      rw [halloc2] at heq2
      simp only [ECS.mk.injEq, Option.some.injEq] at heq2
      obtain ⟨hee, -, -⟩ := heq2
      have hl2 : ent3 e = true := hlive2
      rw [hee, hfree2] at hl2
      exact Bool.false_ne_true hl2

/-- Witness for C9: entity `1` is created from the fresh state, an intervening
`create` (returning `2`) runs in the window, and the next `create` returns
`3 ≠ 1`. -/
theorem id_uniqueness_instance :
    existsEntity init 1 = false ∧ existsEntity stateA 1 = true ∧
      (3 : Nat) ≠ 1 :=
  id_uniqueness 1 init stateA stateC stateD 1 3 [LifeOp.createOp] Reach.start
    rfl (by decide) rfl
    (fun op hop => by
      rw [List.mem_singleton] at hop
      subst hop
      exact ⟨fun h => LifeOp.noConfusion h, fun h => LifeOp.noConfusion h⟩)
    rfl

/-! ### C6 (corrected) -/

/-- Counterexample to C6 as stated: before the storage arrays are allocated,
a bounds-valid `getComponent` lookup, a bounds-valid `addComponent` and
`removeComponent`, and `destroyNow` of a nonzero id all dereference the null
storage pointers (`none`, the model's crash marker for accessing unallocated
storage) instead of no-opping or failing safely. -/
theorem prealloc_safety_counterexample :
    getComponent 1 init 0 1 = none ∧
    addComponent 1 init 0 1 (some 5) = none ∧
    removeComponent 1 init 0 1 = none ∧
    destroyNow 1 init 1 = none :=
  ⟨rfl, rfl, rfl, rfl⟩

/-- C6 amended: before allocation, the read-only operations `getAll`, `count`
(both forms) and `exists` fail safely (empty list, zero count, false), the
`destroyNow` of id `0` is a no-op, and `create` allocates on demand; but
`addComponent`, `removeComponent` and `getComponent` with in-range arguments,
and `destroyNow` of a nonzero id, access the unallocated storage (the crash
marker `none`) rather than no-opping. -/
theorem prealloc_safety_amended (numCids cid eid : Nat) :
    getAll numCids init cid = [] ∧
    count init = 0 ∧
    countCid numCids init cid = 0 ∧
    existsEntity init eid = false ∧
    destroyNow numCids init 0 = some (init, []) ∧
    create init = some (stateA, 1) ∧
    getComponent 1 init 0 1 = none ∧
    addComponent 1 init 0 1 (some 5) = none ∧
    removeComponent 1 init 0 1 = none ∧
    destroyNow 1 init 1 = none :=
  ⟨rfl, rfl, rfl, rfl, rfl, rfl, rfl, rfl, rfl, rfl⟩

end Entity

end EntityFu
